import Mathlib

/-!
# HURON control interfaces: component registry, lifecycle sweeps and state updates

A shallow embedding of `system/control_interfaces/src/robot.cc` and
`system/sensors/src/force_torque_sensor.cc`.

* Objects held through `std::shared_ptr` live on a heap and are identified by
  their address (`Ptr`); the `Robot` stores addresses.
* Calls into virtual methods of collaborators (`Initialize`, `SetUp`,
  `Terminate`, `RequestStateUpdate`, the model refresh) are recorded, in call
  order, in a trace of `Event`s.
* `assert` is an active check: a violated assertion ends the execution
  (`Failure.assertion_failed`).  `std::map::at` on an absent key throws
  (`Failure.out_of_range`).  The unchecked `operator[]` of the registry past
  its end is reported as `Failure.invalid_access`.
-/

namespace mumei

/-- Registry position, the `Index` of the source (an unsigned size). -/
abbrev Index := Nat

/-- Address of a heap object shared through `std::shared_ptr`. -/
abbrev Ptr := Nat

/-- Ways in which a call does not return normally. -/
inductive Failure where
  | assertion_failed
  | out_of_range
  | invalid_access
  deriving DecidableEq

/-- Modelled from the spec: the `Indexable` / `GenericComponent` capabilities of a
registered object, whose headers are not among the sources.  An `Indexable`
"holds an immutable position assigned once by a registry": `index_` is `none`
until `SetIndex` stores a position, `name_` is fixed at construction.
`is_generic_component` is the outcome of
`std::dynamic_pointer_cast<GenericComponent>` on a pointer to the object. -/
structure Component where
  name_ : String
  index_ : Option Index
  is_generic_component : Bool
  deriving DecidableEq

/-- Modelled from the spec: `Indexable::name()`, the name given at construction. -/
def Component.name (c : Component) : String := c.name_

/-- Modelled from the spec: `Indexable::IsRegistered()`, true once a registry has
assigned a position. -/
def Component.IsRegistered (c : Component) : Bool := c.index_.isSome

/-- Modelled from the spec: `Indexable::SetIndex(index)`, stores the position. -/
def Component.SetIndex (c : Component) (index : Index) : Component :=
  { c with index_ := some index }

/-- Modelled from the spec: `multibody::Model`, an external collaborator that
"owns generalized position and velocity vectors" and "exposes read-only views
and a refresh operation".  The refresh itself is a parameter of the operations
that call it. -/
structure Model where
  positions : List Int
  velocities : List Int
  deriving DecidableEq

/-- The content of a `RobotConfiguration`, which the `Robot` only stores. -/
abbrev RobotConfiguration := Nat

/-- Calls that leave the `Robot`, in the order in which they are made. -/
inductive Event where
  | Initialize (component : Ptr)
  | SetUp (component : Ptr)
  | Terminate (component : Ptr)
  | RequestStateUpdate (state_provider : Ptr)
  | ModelUpdateJointStates
  deriving DecidableEq

/-- The `name_to_index_` map as an association list with unique keys. -/
abbrev NameMap := List (String × Index)

/-- The lookup of `map::at`: `none` stands for the thrown `std::out_of_range`. -/
def NameMap.at (m : NameMap) (name : String) : Option Index :=
  match m with
  | [] => none
  | (k, v) :: rest => if k = name then some v else NameMap.at rest name

/-- The assignment `m[name] = index`: replaces the value of an existing key,
inserts the key otherwise. -/
def NameMap.assign (m : NameMap) (name : String) (index : Index) : NameMap :=
  match m with
  | [] => [(name, index)]
  | (k, v) :: rest =>
    if k = name then (k, index) :: rest else (k, v) :: NameMap.assign rest name index

/-- Data members of `Robot` (with those of its bases `GenericComponent` and
`MovingGroup`). -/
structure Robot where
  config_ : RobotConfiguration
  moving_components_ : List Ptr
  model_ : Model
  non_joint_state_providers_ : List Ptr
  joint_state_providers_ : List Ptr
  registered_components_ : List Ptr
  name_to_index_ : NameMap
  deriving DecidableEq

/-- The heap of shared objects, the trace of outgoing calls, and the `Robot`. -/
structure World where
  heap : Ptr → Component
  trace : List Event
  robot : Robot

/-- `Robot::Robot(std::unique_ptr<RobotConfiguration> config)`; `fresh_model` is
the object made by `std::make_shared<multibody::Model>()`. -/
def Robot.new (fresh_model : Model) (config : RobotConfiguration) : Robot :=
  { config_ := config
    moving_components_ := []
    model_ := fresh_model
    non_joint_state_providers_ := []
    joint_state_providers_ := []
    registered_components_ := []
    name_to_index_ := [] }

/-- `Robot::Robot(std::unique_ptr<RobotConfiguration> config,
std::shared_ptr<multibody::Model> model)`. -/
def Robot.new_with_model (fresh_model : Model) (config : RobotConfiguration)
    (_model : Model) : Robot :=
  { config_ := config
    moving_components_ := []
    model_ := fresh_model
    non_joint_state_providers_ := []
    joint_state_providers_ := []
    registered_components_ := []
    name_to_index_ := [] }

/-- One `for` loop of a lifecycle sweep: every item whose
`dynamic_pointer_cast<GenericComponent>` is not null receives `call`; the other
items are passed over. -/
def lifecycle_loop (heap : Ptr → Component) (call : Ptr → Event) :
    List Ptr → List Event → List Event
  | [], trace => trace
  | component :: rest, trace =>
    if (heap component).is_generic_component then
      lifecycle_loop heap call rest (trace ++ [call component])
    else
      lifecycle_loop heap call rest trace

/-- `Robot::Initialize()`. -/
def Robot.Initialize (w : World) : World :=
  let t1 := lifecycle_loop w.heap Event.Initialize w.robot.moving_components_ w.trace
  let t2 := lifecycle_loop w.heap Event.Initialize w.robot.non_joint_state_providers_ t1
  let t3 := lifecycle_loop w.heap Event.Initialize w.robot.joint_state_providers_ t2
  { w with trace := t3 }

/-- `Robot::SetUp()`. -/
def Robot.SetUp (w : World) : World :=
  let t1 := lifecycle_loop w.heap Event.SetUp w.robot.moving_components_ w.trace
  let t2 := lifecycle_loop w.heap Event.SetUp w.robot.non_joint_state_providers_ t1
  let t3 := lifecycle_loop w.heap Event.SetUp w.robot.joint_state_providers_ t2
  { w with trace := t3 }

/-- `Robot::Terminate()`. -/
def Robot.Terminate (w : World) : World :=
  let t1 := lifecycle_loop w.heap Event.Terminate w.robot.moving_components_ w.trace
  let t2 := lifecycle_loop w.heap Event.Terminate w.robot.non_joint_state_providers_ t1
  let t3 := lifecycle_loop w.heap Event.Terminate w.robot.joint_state_providers_ t2
  { w with trace := t3 }

/-- `Robot::RegisterStateProvider(state_provider, is_joint_state_provider)`. -/
def Robot.RegisterStateProvider (w : World) (state_provider : Ptr)
    (is_joint_state_provider : Bool) : Except Failure World :=
  if (w.heap state_provider).IsRegistered then
    .error Failure.assertion_failed
  else
    let r0 := w.robot
    let r1 : Robot :=
      if !is_joint_state_provider then
        { r0 with non_joint_state_providers_ :=
                    r0.non_joint_state_providers_ ++ [state_provider] }
      else
        { r0 with joint_state_providers_ :=
                    r0.joint_state_providers_ ++ [state_provider] }
    let r2 : Robot :=
      { r1 with registered_components_ := r1.registered_components_ ++ [state_provider] }
    let r3 : Robot :=
      { r2 with name_to_index_ :=
                  r2.name_to_index_.assign (w.heap state_provider).name
                    (r2.registered_components_.length - 1) }
    .ok { heap := Function.update w.heap state_provider
                    ((w.heap state_provider).SetIndex (r3.registered_components_.length - 1))
          trace := w.trace
          robot := r3 }

/-- The `for` loop of `Robot::UpdateAllStates()`. -/
def update_loop : List Ptr → List Event → List Event
  | [], trace => trace
  | state_provider :: rest, trace =>
    update_loop rest (trace ++ [Event.RequestStateUpdate state_provider])

/-- `Robot::UpdateAllStates()`; `refresh` is `multibody::Model::UpdateJointStates`. -/
def Robot.UpdateAllStates (refresh : Model → Model) (w : World) : World :=
  let t1 := update_loop w.robot.non_joint_state_providers_ w.trace
  { w with trace := t1 ++ [Event.ModelUpdateJointStates]
           robot := { w.robot with model_ := refresh w.robot.model_ } }

/-- `Robot::UpdateJointStates()`. -/
def Robot.UpdateJointStates (refresh : Model → Model) (w : World) : World :=
  { w with trace := w.trace ++ [Event.ModelUpdateJointStates]
           robot := { w.robot with model_ := refresh w.robot.model_ } }

/-- `Robot::GetJointPositions()`. -/
def Robot.GetJointPositions (r : Robot) : List Int := r.model_.positions

/-- `Robot::GetJointVelocities()`. -/
def Robot.GetJointVelocities (r : Robot) : List Int := r.model_.velocities

/-- `Robot::GetComponent(Index id)`: the unchecked `registered_components_[id]`. -/
def Robot.GetComponent_id (r : Robot) (id : Index) : Except Failure Ptr :=
  match r.registered_components_[id]? with
  | some component => .ok component
  | none => .error Failure.invalid_access

/-- `Robot::GetComponent(const std::string& name)`:
`registered_components_[name_to_index_.at(name)]`. -/
def Robot.GetComponent (r : Robot) (name : String) : Except Failure Ptr :=
  match r.name_to_index_.at name with
  | none => .error Failure.out_of_range
  | some id => Robot.GetComponent_id r id

/-- The calls a control program can make on a `Robot`. -/
inductive Op where
  | RegisterStateProvider (state_provider : Ptr) (is_joint_state_provider : Bool)
  | Initialize
  | SetUp
  | Terminate
  | UpdateAllStates
  | UpdateJointStates
  deriving DecidableEq

/-- One call. -/
def step (refresh : Model → Model) (op : Op) (w : World) : Except Failure World :=
  match op with
  | Op.RegisterStateProvider sp j => Robot.RegisterStateProvider w sp j
  | Op.Initialize => .ok (Robot.Initialize w)
  | Op.SetUp => .ok (Robot.SetUp w)
  | Op.Terminate => .ok (Robot.Terminate w)
  | Op.UpdateAllStates => .ok (Robot.UpdateAllStates refresh w)
  | Op.UpdateJointStates => .ok (Robot.UpdateJointStates refresh w)

/-- A sequence of calls, stopping at the first failure. -/
def run (refresh : Model → Model) : List Op → World → Except Failure World
  | [], w => .ok w
  | op :: rest, w =>
    match step refresh op w with
    | .error e => .error e
    | .ok w1 => run refresh rest w1

/-- Registrations made one after the other, stopping at the first failure. -/
def register_all : List (Ptr × Bool) → World → Except Failure World
  | [], w => .ok w
  | (state_provider, is_joint) :: rest, w =>
    match Robot.RegisterStateProvider w state_provider is_joint with
    | .error e => .error e
    | .ok w1 => register_all rest w1

/-- A world whose `Robot` has just been constructed. -/
def World.fresh (heap : Ptr → Component) (trace : List Event) (fresh_model : Model)
    (config : RobotConfiguration) : World :=
  { heap := heap, trace := trace, robot := Robot.new fresh_model config }

/-- Unary minus of an Eigen vector: the vector of the negated coefficients. -/
def vector_neg {α : Type} [Neg α] : List α → List α
  | [] => []
  | x :: rest => (-x) :: vector_neg rest

/-- Data members of `ForceTorqueSensor` used by its methods; `α` is the scalar
type of the wrench coefficients. -/
structure ForceTorqueSensor (α : Type) where
  name_ : String
  reverse_wrench_direction_ : Bool
  wrench_ : List α

/-- `ForceTorqueSensor::RequestStateUpdate()`; `raw` is the value returned by the
driver hook `DoGetWrenchRaw()`. -/
def ForceTorqueSensor.RequestStateUpdate {α : Type} (raw : List α)
    (s : ForceTorqueSensor α) : ForceTorqueSensor α :=
  { s with wrench_ := raw }

/-- `ForceTorqueSensor::GetValue()`. -/
def ForceTorqueSensor.GetValue {α : Type} [Neg α] (s : ForceTorqueSensor α) : List α :=
  if s.reverse_wrench_direction_ then vector_neg s.wrench_ else s.wrench_

/-- `ForceTorqueSensor::GetNewState(new_state)`: the content of the destination
after `new_state = GetValue()`.  An `Eigen::Ref` cannot be resized, so the
assignment is defined for a destination of the same shape only. -/
def ForceTorqueSensor.GetNewState {α : Type} [Neg α] (s : ForceTorqueSensor α)
    (new_state : List α) : Except Failure (List α) :=
  if new_state.length = (ForceTorqueSensor.GetValue s).length then
    .ok (ForceTorqueSensor.GetValue s)
  else
    .error Failure.assertion_failed

/-- The registry invariant: positions, name map and sub-list sizes agree. -/
structure RegistryInv (w : World) : Prop where
  index_at : ∀ (i : Nat) (p : Ptr), w.robot.registered_components_[i]? = some p →
    (w.heap p).index_ = some i
  name_at : ∀ (s : String) (i : Nat), w.robot.name_to_index_.at s = some i ↔
    ((∃ p, w.robot.registered_components_[i]? = some p ∧ (w.heap p).name_ = s) ∧
      ∀ (k : Nat) (q : Ptr), i < k → w.robot.registered_components_[k]? = some q → (w.heap q).name_ ≠ s)
  sizes : w.robot.registered_components_.length =
    w.robot.non_joint_state_providers_.length + w.robot.joint_state_providers_.length
  sub_lists_registered : ∀ (p : Ptr),
    p ∈ w.robot.non_joint_state_providers_ ++ w.robot.joint_state_providers_ →
    (w.heap p).index_ ≠ none
  sub_lists_nodup :
    (w.robot.non_joint_state_providers_ ++ w.robot.joint_state_providers_).Nodup

/-- The calls of one lifecycle phase as the specification orders them: the
moving components, then the non-joint providers, then the joint providers, each
collection in its own order, keeping the lifecycle-capable items only. -/
def phase_calls (call : Ptr → Event) (w : World) : List Event :=
  ((w.robot.moving_components_ ++ w.robot.non_joint_state_providers_ ++
      w.robot.joint_state_providers_).filter
    (fun c => (w.heap c).is_generic_component)).map call

/-- `Robot::Robot()`: delegates to `Robot(std::make_unique<RobotConfiguration>())`;
`default_config` is the content of that configuration. -/
def Robot.new_default (fresh_model : Model) (default_config : RobotConfiguration) : Robot :=
  Robot.new fresh_model default_config

/-- `Robot::Robot(std::shared_ptr<multibody::Model> model)`: delegates to
`Robot(std::make_unique<RobotConfiguration>(), std::move(model))`. -/
def Robot.new_from_model (fresh_model : Model) (default_config : RobotConfiguration)
    (model : Model) : Robot :=
  Robot.new_with_model fresh_model default_config model

/-- Modelled from the spec: the cached state of a state provider, which lives in
classes whose sources are not given.  "`RequestStateUpdate()` pulls exactly one
fresh sample into internal storage" and "cached state remains stable between
calls until the next `RequestStateUpdate`": with `driver p n` the sample that the
driver of provider `p` delivers to its `n`-th pull and `initial p` the content
before any pull, the cache holds the sample of the last pull recorded in the
trace. -/
def cached_state (initial : Ptr → List Int) (driver : Ptr → Nat → List Int)
    (trace : List Event) (p : Ptr) : List Int :=
  match trace.count (Event.RequestStateUpdate p) with
  | 0 => initial p
  | n + 1 => driver p n

/-- The number of calls in `ops` that refresh the model. -/
def refresh_calls : List Op → Nat
  | [] => 0
  | Op.UpdateAllStates :: rest => refresh_calls rest + 1
  | Op.UpdateJointStates :: rest => refresh_calls rest + 1
  | _ :: rest => refresh_calls rest

/-- Every entry of the name map points at a registry position that holds a
component of the entry's name. -/
def NameMapInv (w : World) : Prop :=
  ∀ e ∈ w.robot.name_to_index_,
    ∃ p, w.robot.registered_components_[e.2]? = some p ∧ (w.heap p).name_ = e.1

/-! ## Auxiliary facts -/

theorem NameMap.at_assign_same (m : NameMap) (k : String) (v : Index) :
    (NameMap.assign m k v).at k = some v := by
  induction m with
  | nil => simp [NameMap.assign, NameMap.at]
  | cons e rest ih =>
    obtain ⟨k1, v1⟩ := e
    by_cases h : k1 = k
    · simp [NameMap.assign, NameMap.at, h]
    · simp [NameMap.assign, NameMap.at, h, ih]

theorem NameMap.at_assign_other (m : NameMap) (k k2 : String) (v : Index) (hk : k2 ≠ k) :
    (NameMap.assign m k v).at k2 = m.at k2 := by
  induction m with
  | nil => simp [NameMap.assign, NameMap.at, Ne.symm hk]
  | cons e rest ih =>
    obtain ⟨k1, v1⟩ := e
    by_cases h : k1 = k
    · subst h
      simp [NameMap.assign, NameMap.at, Ne.symm hk]
    · by_cases h2 : k1 = k2
      · subst h2
        simp [NameMap.assign, NameMap.at, hk]
      · simp [NameMap.assign, NameMap.at, h, h2, ih]

theorem lifecycle_loop_eq (heap : Ptr → Component) (call : Ptr → Event)
    (l : List Ptr) (t : List Event) :
    lifecycle_loop heap call l t =
      t ++ (l.filter (fun c => (heap c).is_generic_component)).map call := by
  induction l generalizing t with
  | nil => simp [lifecycle_loop]
  | cons c rest ih =>
    by_cases h : (heap c).is_generic_component = true
    · simp [lifecycle_loop, h, ih]
    · simp [lifecycle_loop, h, ih]

theorem update_loop_eq (l : List Ptr) (t : List Event) :
    update_loop l t = t ++ l.map Event.RequestStateUpdate := by
  induction l generalizing t with
  | nil => simp [update_loop]
  | cons c rest ih => simp [update_loop, ih]

/-- What a successful registration leaves behind, field by field. -/
theorem register_ok_fields {w w1 : World} {sp : Ptr} {j : Bool}
    (h : Robot.RegisterStateProvider w sp j = .ok w1) :
    (w.heap sp).index_ = none ∧
    w1.heap = Function.update w.heap sp
      { w.heap sp with index_ := some w.robot.registered_components_.length } ∧
    w1.trace = w.trace ∧
    w1.robot.registered_components_ = w.robot.registered_components_ ++ [sp] ∧
    w1.robot.name_to_index_ =
      NameMap.assign w.robot.name_to_index_ (w.heap sp).name_
        w.robot.registered_components_.length ∧
    w1.robot.non_joint_state_providers_ =
      (if j then w.robot.non_joint_state_providers_
        else w.robot.non_joint_state_providers_ ++ [sp]) ∧
    w1.robot.joint_state_providers_ =
      (if j then w.robot.joint_state_providers_ ++ [sp]
        else w.robot.joint_state_providers_) ∧
    w1.robot.moving_components_ = w.robot.moving_components_ ∧
    w1.robot.model_ = w.robot.model_ ∧
    w1.robot.config_ = w.robot.config_ := by
  unfold Robot.RegisterStateProvider at h
  by_cases hr : (w.heap sp).IsRegistered = true
  · simp [hr] at h
  · simp only [hr] at h
    have hnone : (w.heap sp).index_ = none := by
      simpa [Component.IsRegistered] using hr
    injection h with h
    subst h
    cases j <;> simp [hnone, Component.SetIndex, Component.name]

/-- A provider that holds no position yet can be registered. -/
theorem register_succeeds (w : World) (sp : Ptr) (j : Bool)
    (h : (w.heap sp).index_ = none) :
    ∃ w1, Robot.RegisterStateProvider w sp j = .ok w1 := by
  unfold Robot.RegisterStateProvider
  simp [Component.IsRegistered, h]

theorem getElem?_snoc_eq_some {α : Type} (l : List α) (x p : α) (i : Nat) :
    (l ++ [x])[i]? = some p ↔ l[i]? = some p ∨ (i = l.length ∧ x = p) := by
  rcases Nat.lt_trichotomy i l.length with h | h | h
  · rw [List.getElem?_append_left h]
    constructor
    · intro h1; exact Or.inl h1
    · rintro (h1 | ⟨h1, _⟩)
      · exact h1
      · omega
  · subst h
    simp
  · rw [List.getElem?_append_right (Nat.le_of_lt h)]
    have h1 : l[i]? = none := List.getElem?_eq_none (Nat.le_of_lt h)
    have h2 : ([x] : List α)[i - l.length]? = none :=
      List.getElem?_eq_none (by simp; omega)
    rw [h1, h2]
    constructor
    · intro h3; cases h3
    · rintro (h3 | ⟨h3, _⟩)
      · cases h3
      · omega

theorem getElem?_lt_of_eq_some {α : Type} {l : List α} {p : α} {i : Nat}
    (h : l[i]? = some p) : i < l.length := by
  by_contra hc
  rw [List.getElem?_eq_none (Nat.le_of_not_lt hc)] at h
  cases h

theorem inv_fresh (heap : Ptr → Component) (trace : List Event) (fresh_model : Model)
    (config : RobotConfiguration) :
    RegistryInv (World.fresh heap trace fresh_model config) := by
  constructor
  · intro i p h
    simp [World.fresh, Robot.new] at h
  · intro s i
    simp [World.fresh, Robot.new, NameMap.at]
  · simp [World.fresh, Robot.new]
  · intro p hp
    simp [World.fresh, Robot.new] at hp
  · simp [World.fresh, Robot.new]

theorem inv_register {w w1 : World} {sp : Ptr} {j : Bool} (hinv : RegistryInv w)
    (h : Robot.RegisterStateProvider w sp j = .ok w1) : RegistryInv w1 := by
  obtain ⟨hnone, hheap, -, hreg, hmap, hnj, hj, -, -, -⟩ := register_ok_fields h
  have hname : ∀ q, (w1.heap q).name_ = (w.heap q).name_ := by
    intro q
    rw [hheap]
    by_cases hq : q = sp
    · subst hq; simp
    · simp [Function.update, hq]
  have hnotin : ∀ (i : Nat) (q : Ptr), w.robot.registered_components_[i]? = some q → q ≠ sp := by
    intro i q hq hqs
    subst hqs
    have := hinv.index_at i q hq
    rw [hnone] at this
    cases this
  constructor
  · intro i p hp
    rw [hreg, getElem?_snoc_eq_some] at hp
    rcases hp with hp | ⟨hi, hx⟩
    · rw [hheap]
      simp [Function.update, hnotin i p hp]
      exact hinv.index_at i p hp
    · subst hx
      rw [hheap, hi]
      simp
  · intro s i
    by_cases hs : s = (w.heap sp).name_
    · subst hs
      rw [hmap, NameMap.at_assign_same]
      constructor
      · intro hi
        injection hi with hi
        subst hi
        refine ⟨⟨sp, ?_, hname sp⟩, ?_⟩
        · rw [hreg]; simp
        · intro k q hk hq
          rw [hreg] at hq
          have := getElem?_lt_of_eq_some hq
          simp at this
          omega
      · rintro ⟨⟨p, hp, -⟩, hlast⟩
        rw [hreg] at hp
        have hlt := getElem?_lt_of_eq_some hp
        simp at hlt
        by_cases hi : i = w.robot.registered_components_.length
        · rw [hi]
        · exfalso
          have hsp : w1.robot.registered_components_[w.robot.registered_components_.length]?
              = some sp := by
            rw [hreg]; simp
          exact hlast w.robot.registered_components_.length sp (by omega) hsp (hname sp)
    · rw [hmap, NameMap.at_assign_other _ _ _ _ hs, hinv.name_at s i]
      constructor
      · rintro ⟨⟨p, hp, hpn⟩, hlast⟩
        refine ⟨⟨p, ?_, ?_⟩, ?_⟩
        · rw [hreg, getElem?_snoc_eq_some]; exact Or.inl hp
        · rw [hname]; exact hpn
        · intro k q hk hq
          rw [hreg, getElem?_snoc_eq_some] at hq
          rw [hname]
          rcases hq with hq | ⟨-, hx⟩
          · exact hlast k q hk hq
          · subst hx
            exact fun hc => hs hc.symm
      · rintro ⟨⟨p, hp, hpn⟩, hlast⟩
        rw [hreg, getElem?_snoc_eq_some] at hp
        rw [hname] at hpn
        rcases hp with hp | ⟨-, hx⟩
        · refine ⟨⟨p, hp, hpn⟩, ?_⟩
          intro k q hk hq
          have := hlast k q hk (by rw [hreg, getElem?_snoc_eq_some]; exact Or.inl hq)
          rwa [hname] at this
        · subst hx
          exact absurd hpn.symm hs
  · rw [hreg, hnj, hj]
    have := hinv.sizes
    cases j <;> simp <;> omega
  · intro p hp
    rw [hheap]
    by_cases hps : p = sp
    · subst hps; simp
    · have hp1 : p ∈ w.robot.non_joint_state_providers_ ++ w.robot.joint_state_providers_ := by
        rw [hnj, hj] at hp
        cases j <;> simp [hps] at hp <;> simpa using hp
      simpa [Function.update, hps] using hinv.sub_lists_registered p hp1
  · have hsp : sp ∉ w.robot.non_joint_state_providers_ ++ w.robot.joint_state_providers_ :=
      fun hc => hinv.sub_lists_registered sp hc hnone
    have hnd := hinv.sub_lists_nodup
    rw [hnj, hj]
    rw [List.nodup_append] at hnd ⊢
    simp only [List.mem_append, not_or] at hsp
    obtain ⟨n1, n2, n3⟩ := hnd
    cases j
    · simp only [Bool.false_eq_true, if_false]
      refine ⟨?_, n2, ?_⟩
      · rw [List.nodup_append]
        exact ⟨n1, List.nodup_singleton sp, by simp [hsp.1]⟩
      · intro a ha hb
        simp only [List.mem_append, List.mem_singleton] at ha
        rcases ha with ha | ha
        · exact n3 ha hb
        · subst ha; exact hsp.2 hb
    · simp only [if_true]
      refine ⟨n1, ?_, ?_⟩
      · rw [List.nodup_append]
        exact ⟨n2, List.nodup_singleton sp, by simp [hsp.2]⟩
      · intro a ha hb
        simp only [List.mem_append, List.mem_singleton] at hb
        rcases hb with hb | hb
        · exact n3 ha hb
        · subst hb; exact hsp.1 ha

theorem inv_step (refresh : Model → Model) {op : Op} {w w1 : World}
    (hinv : RegistryInv w) (h : step refresh op w = .ok w1) : RegistryInv w1 := by
  cases op with
  | RegisterStateProvider sp j => exact inv_register hinv h
  | Initialize =>
    injection h with h; subst h
    exact ⟨hinv.index_at, hinv.name_at, hinv.sizes, hinv.sub_lists_registered,
      hinv.sub_lists_nodup⟩
  | SetUp =>
    injection h with h; subst h
    exact ⟨hinv.index_at, hinv.name_at, hinv.sizes, hinv.sub_lists_registered,
      hinv.sub_lists_nodup⟩
  | Terminate =>
    injection h with h; subst h
    exact ⟨hinv.index_at, hinv.name_at, hinv.sizes, hinv.sub_lists_registered,
      hinv.sub_lists_nodup⟩
  | UpdateAllStates =>
    injection h with h; subst h
    exact ⟨hinv.index_at, hinv.name_at, hinv.sizes, hinv.sub_lists_registered,
      hinv.sub_lists_nodup⟩
  | UpdateJointStates =>
    injection h with h; subst h
    exact ⟨hinv.index_at, hinv.name_at, hinv.sizes, hinv.sub_lists_registered,
      hinv.sub_lists_nodup⟩

theorem inv_run (refresh : Model → Model) (ops : List Op) {w w1 : World}
    (hinv : RegistryInv w) (h : run refresh ops w = .ok w1) : RegistryInv w1 := by
  induction ops generalizing w with
  | nil =>
    injection h with h; subst h; exact hinv
  | cons op rest ih =>
    simp only [run] at h
    cases hs : step refresh op w with
    | error e => rw [hs] at h; cases h
    | ok w2 =>
      rw [hs] at h
      exact ih (inv_step refresh hinv hs) h

theorem inv_register_all (regs : List (Ptr × Bool)) {w w1 : World}
    (hinv : RegistryInv w) (h : register_all regs w = .ok w1) : RegistryInv w1 := by
  induction regs generalizing w with
  | nil =>
    injection h with h; subst h; exact hinv
  | cons r rest ih =>
    obtain ⟨sp, j⟩ := r
    simp only [register_all] at h
    cases hs : Robot.RegisterStateProvider w sp j with
    | error e => rw [hs] at h; cases h
    | ok w2 =>
      rw [hs] at h
      exact ih (inv_register hinv hs) h

/-- The lists and the untouched members after a run of registrations. -/
theorem register_all_fields (regs : List (Ptr × Bool)) {w w1 : World}
    (h : register_all regs w = .ok w1) :
    w1.robot.registered_components_ =
      w.robot.registered_components_ ++ regs.map Prod.fst ∧
    w1.robot.non_joint_state_providers_ =
      w.robot.non_joint_state_providers_ ++
        (regs.filter (fun r => !r.2)).map Prod.fst ∧
    w1.robot.joint_state_providers_ =
      w.robot.joint_state_providers_ ++ (regs.filter (fun r => r.2)).map Prod.fst ∧
    w1.robot.moving_components_ = w.robot.moving_components_ ∧
    w1.robot.model_ = w.robot.model_ ∧
    w1.robot.config_ = w.robot.config_ ∧
    w1.trace = w.trace ∧
    (∀ q, (w1.heap q).name_ = (w.heap q).name_) ∧
    (∀ q, (w1.heap q).is_generic_component = (w.heap q).is_generic_component) := by
  induction regs generalizing w with
  | nil =>
    injection h with h; subst h; simp
  | cons r rest ih =>
    obtain ⟨sp, j⟩ := r
    simp only [register_all] at h
    cases hs : Robot.RegisterStateProvider w sp j with
    | error e => rw [hs] at h; cases h
    | ok w2 =>
      rw [hs] at h
      obtain ⟨-, hheap, htr, hreg, -, hnj, hj, hmv, hmod, hcfg⟩ := register_ok_fields hs
      obtain ⟨i1, i2, i3, i4, i5, i6, i7, i8, i9⟩ := ih h
      have hn : ∀ q, (w2.heap q).name_ = (w.heap q).name_ := by
        intro q; rw [hheap]
        by_cases hq : q = sp
        · subst hq; simp
        · simp [Function.update, hq]
      have hg : ∀ q, (w2.heap q).is_generic_component = (w.heap q).is_generic_component := by
        intro q; rw [hheap]
        by_cases hq : q = sp
        · subst hq; simp
        · simp [Function.update, hq]
      refine ⟨?_, ?_, ?_, ?_, ?_, ?_, ?_, ?_, ?_⟩
      · rw [i1, hreg]; simp
      · rw [i2, hnj]; cases j <;> simp
      · rw [i3, hj]; cases j <;> simp
      · rw [i4, hmv]
      · rw [i5, hmod]
      · rw [i6, hcfg]
      · rw [i7, htr]
      · intro q; rw [i8, hn]
      · intro q; rw [i9, hg]

/-- Distinct providers that hold no position yet can all be registered. -/
theorem register_all_succeeds (regs : List (Ptr × Bool)) (w : World)
    (hdistinct : (regs.map Prod.fst).Nodup)
    (hnew : ∀ r ∈ regs, (w.heap r.1).index_ = none) :
    ∃ w1, register_all regs w = .ok w1 := by
  induction regs generalizing w with
  | nil => exact ⟨w, rfl⟩
  | cons r rest ih =>
    obtain ⟨sp, j⟩ := r
    obtain ⟨w2, hs⟩ := register_succeeds w sp j (hnew (sp, j) (by simp))
    simp only [register_all, hs]
    obtain ⟨-, hheap, -⟩ := register_ok_fields hs
    simp only [List.map_cons, List.nodup_cons] at hdistinct
    apply ih w2 hdistinct.2
    intro r hr
    have hne : r.1 ≠ sp := by
      intro hc
      apply hdistinct.1
      rw [← hc]
      exact List.mem_map_of_mem Prod.fst hr
    rw [hheap]
    simp [Function.update, hne]
    exact hnew r (by simp [hr])

theorem nodup_getElem?_inj {α : Type} {l : List α} (hl : l.Nodup) {i k : Nat} {x : α}
    (hi : l[i]? = some x) (hk : l[k]? = some x) : i = k := by
  rw [List.nodup_iff_getElem?_ne_getElem?] at hl
  have h1 := getElem?_lt_of_eq_some hi
  have h2 := getElem?_lt_of_eq_some hk
  rcases Nat.lt_trichotomy i k with h | h | h
  · exact absurd (hi.trans hk.symm) (hl i k h h2)
  · exact h
  · exact absurd (hk.trans hi.symm) (hl k i h h1)

/-! ## Registration order, indices and lookups -/

/-- C1: distinct providers with pairwise distinct names, none of them registered
before, are all accepted by a freshly constructed Robot; the i-th one receives
index i, and both `GetComponent(i)` and `GetComponent(name_i)` return it. -/
theorem C1_indices_follow_call_order (heap : Ptr → Component) (trace : List Event)
    (fresh_model : Model) (config : RobotConfiguration) (regs : List (Ptr × Bool))
    (hdistinct : (regs.map Prod.fst).Nodup)
    (hnames : (regs.map (fun r => (heap r.1).name)).Nodup)
    (hnew : ∀ r ∈ regs, (heap r.1).IsRegistered = false) :
    ∃ w, register_all regs (World.fresh heap trace fresh_model config) = .ok w ∧
      ∀ (i : Nat) (sp : Ptr) (j : Bool), regs[i]? = some (sp, j) →
        (w.heap sp).index_ = some i ∧
        Robot.GetComponent_id w.robot i = .ok sp ∧
        Robot.GetComponent w.robot (heap sp).name = .ok sp ∧
        (w.heap sp).name = (heap sp).name := by
  have hnew1 : ∀ r ∈ regs,
      ((World.fresh heap trace fresh_model config).heap r.1).index_ = none := by
    intro r hr
    have := hnew r hr
    simpa [Component.IsRegistered, World.fresh] using this
  obtain ⟨w, hw⟩ := register_all_succeeds regs _ hdistinct hnew1
  refine ⟨w, hw, ?_⟩
  have hinv := inv_register_all regs (inv_fresh heap trace fresh_model config) hw
  obtain ⟨hreg, -, -, -, -, -, -, hname, -⟩ := register_all_fields regs hw
  have hreg1 : w.robot.registered_components_ = regs.map Prod.fst := by
    rw [hreg]; simp [World.fresh, Robot.new]
  have hname1 : ∀ q, (w.heap q).name_ = (heap q).name_ := by
    intro q; rw [hname]; rfl
  intro i sp j hi
  have hsp : w.robot.registered_components_[i]? = some sp := by
    rw [hreg1, List.getElem?_map, hi]; rfl
  have hid : Robot.GetComponent_id w.robot i = .ok sp := by
    simp [Robot.GetComponent_id, hsp]
  refine ⟨hinv.index_at i sp hsp, hid, ?_, hname1 sp⟩
  have hat : w.robot.name_to_index_.at (heap sp).name = some i := by
    rw [hinv.name_at]
    refine ⟨⟨sp, hsp, hname1 sp⟩, ?_⟩
    intro k q hk hq hc
    rw [hreg1, List.getElem?_map] at hq
    cases hrk : regs[k]? with
    | none => rw [hrk] at hq; cases hq
    | some rk =>
      rw [hrk] at hq
      simp only [Option.map_some', Option.some.injEq] at hq
      have e1 : (regs.map (fun r => (heap r.1).name))[i]? = some (heap sp).name := by
        rw [List.getElem?_map, hi]; rfl
      have e2 : (regs.map (fun r => (heap r.1).name))[k]? = some (heap sp).name := by
        rw [List.getElem?_map, hrk]
        simp only [Option.map_some', Option.some.injEq]
        rw [hq, Component.name, ← hname1 q, hc]
      have := nodup_getElem?_inj hnames e1 e2
      omega
  simp [Robot.GetComponent, hat, hid]

theorem C1_indices_follow_call_order_witness :
    ([((0 : Ptr), false), (1, true), (2, false)].map Prod.fst).Nodup ∧
    ∃ w, register_all [((0 : Ptr), false), (1, true), (2, false)]
        (World.fresh
          (fun p => ⟨if p = 0 then "ft_left" else if p = 1 then "knee" else "ft_right",
            none, p = 1⟩) [] ⟨[], []⟩ 0) = .ok w ∧
      ∀ (i : Nat) (sp : Ptr) (j : Bool),
        [((0 : Ptr), false), (1, true), (2, false)][i]? = some (sp, j) →
        (w.heap sp).index_ = some i ∧
        Robot.GetComponent_id w.robot i = .ok sp ∧
        Robot.GetComponent w.robot
          ((fun p => (⟨if p = 0 then "ft_left" else if p = 1 then "knee" else "ft_right",
            none, p = 1⟩ : Component)) sp).name = .ok sp ∧
        (w.heap sp).name =
          ((fun p => (⟨if p = 0 then "ft_left" else if p = 1 then "knee" else "ft_right",
            none, p = 1⟩ : Component)) sp).name :=
  ⟨by decide,
   C1_indices_follow_call_order _ [] ⟨[], []⟩ 0 [((0 : Ptr), false), (1, true), (2, false)]
    (by decide) (by decide) (by decide)⟩

/-! ## Lifecycle sweeps and state updates -/

theorem count_phase_calls (call : Ptr → Event) (hinj : Function.Injective call)
    (w : World) (c : Ptr) :
    (phase_calls call w).count (call c) =
      if (w.heap c).is_generic_component then
        (w.robot.moving_components_ ++ w.robot.non_joint_state_providers_ ++
          w.robot.joint_state_providers_).count c
      else 0 := by
  unfold phase_calls
  rw [List.count_map_of_injective _ call hinj]
  by_cases h : (w.heap c).is_generic_component = true
  · rw [if_pos h, List.count_filter]
    simpa using h
  · rw [if_neg h, List.count_eq_zero]
    intro hc
    rw [List.mem_filter] at hc
    exact h hc.2

theorem count_phase_calls_other (call other : Ptr → Event)
    (hne : ∀ a b, call a ≠ other b) (w : World) (c : Ptr) :
    (phase_calls call w).count (other c) = 0 := by
  rw [List.count_eq_zero]
  unfold phase_calls
  intro hc
  rw [List.mem_map] at hc
  obtain ⟨a, -, ha⟩ := hc
  exact hne a c ha

/-- C2 (as amended): `Initialize(); SetUp(); Terminate()` emits, after what was
already in the trace, the Initialize calls, then the SetUp calls, then the
Terminate calls, each phase going through the moving components, the non-joint
providers and the joint providers in their stored order and calling the
lifecycle-capable items only: one call per phase for each of the K capable
items, 3·K calls in all.  Nothing but the trace changes.  A component receives
each phase as many times as it is listed in the three collections (never when
it is not lifecycle-capable), hence exactly once when the three collections
list no object twice. -/
theorem C2_lifecycle_sweeps_in_order (w : World) :
    (Robot.Terminate (Robot.SetUp (Robot.Initialize w))).trace =
      w.trace ++ (phase_calls Event.Initialize w ++ phase_calls Event.SetUp w ++
        phase_calls Event.Terminate w) ∧
    (Robot.Terminate (Robot.SetUp (Robot.Initialize w))).heap = w.heap ∧
    (Robot.Terminate (Robot.SetUp (Robot.Initialize w))).robot = w.robot ∧
    (phase_calls Event.Initialize w ++ phase_calls Event.SetUp w ++
        phase_calls Event.Terminate w).length =
      3 * ((w.robot.moving_components_ ++ w.robot.non_joint_state_providers_ ++
        w.robot.joint_state_providers_).filter
          (fun c => (w.heap c).is_generic_component)).length ∧
    (∀ c : Ptr, ∀ call ∈ [Event.Initialize, Event.SetUp, Event.Terminate],
      (phase_calls Event.Initialize w ++ phase_calls Event.SetUp w ++
        phase_calls Event.Terminate w).count (call c) =
      if (w.heap c).is_generic_component then
        (w.robot.moving_components_ ++ w.robot.non_joint_state_providers_ ++
          w.robot.joint_state_providers_).count c
      else 0) ∧
    ((w.robot.moving_components_ ++ w.robot.non_joint_state_providers_ ++
        w.robot.joint_state_providers_).Nodup →
      ∀ c ∈ w.robot.moving_components_ ++ w.robot.non_joint_state_providers_ ++
        w.robot.joint_state_providers_,
      (w.heap c).is_generic_component = true →
      ∀ call ∈ [Event.Initialize, Event.SetUp, Event.Terminate],
      (phase_calls Event.Initialize w ++ phase_calls Event.SetUp w ++
        phase_calls Event.Terminate w).count (call c) = 1) := by
  have hI : Function.Injective Event.Initialize := fun a b h => by injection h
  have hS : Function.Injective Event.SetUp := fun a b h => by injection h
  have hT : Function.Injective Event.Terminate := fun a b h => by injection h
  have hcount : ∀ c : Ptr, ∀ call ∈ [Event.Initialize, Event.SetUp, Event.Terminate],
      (phase_calls Event.Initialize w ++ phase_calls Event.SetUp w ++
        phase_calls Event.Terminate w).count (call c) =
      if (w.heap c).is_generic_component then
        (w.robot.moving_components_ ++ w.robot.non_joint_state_providers_ ++
          w.robot.joint_state_providers_).count c
      else 0 := by
    intro c call hcall
    simp only [List.mem_cons, List.mem_singleton, List.not_mem_nil, or_false] at hcall
    rw [List.count_append, List.count_append]
    rcases hcall with h | h | h <;> subst h
    · rw [count_phase_calls _ hI, count_phase_calls_other Event.SetUp Event.Initialize
        (fun a b h => by cases h), count_phase_calls_other Event.Terminate Event.Initialize
        (fun a b h => by cases h)]
      simp
    · rw [count_phase_calls _ hS, count_phase_calls_other Event.Initialize Event.SetUp
        (fun a b h => by cases h), count_phase_calls_other Event.Terminate Event.SetUp
        (fun a b h => by cases h)]
      simp
    · rw [count_phase_calls _ hT, count_phase_calls_other Event.Initialize Event.Terminate
        (fun a b h => by cases h), count_phase_calls_other Event.SetUp Event.Terminate
        (fun a b h => by cases h)]
      simp
  refine ⟨?_, rfl, rfl, ?_, hcount, ?_⟩
  · simp only [Robot.Terminate, Robot.SetUp, Robot.Initialize, lifecycle_loop_eq, phase_calls,
      List.filter_append, List.map_append, List.append_assoc]
  · simp only [phase_calls, List.length_append, List.length_map]
    omega
  · intro hnd c hc hg call hcall
    rw [hcount c call hcall, if_pos hg]
    exact List.count_eq_one_of_mem hnd hc

theorem C2_lifecycle_sweeps_in_order_witness :
    (([7, 8] : List Ptr) ++ [3, 4] ++ [5]).Nodup ∧
    (phase_calls Event.Initialize
        ⟨fun p => ⟨"c", none, p != 4⟩, [], ⟨0, [7, 8], ⟨[], []⟩, [3, 4], [5], [3, 4, 5], []⟩⟩ ++
      phase_calls Event.SetUp
        ⟨fun p => ⟨"c", none, p != 4⟩, [], ⟨0, [7, 8], ⟨[], []⟩, [3, 4], [5], [3, 4, 5], []⟩⟩ ++
      phase_calls Event.Terminate
        ⟨fun p => ⟨"c", none, p != 4⟩, [], ⟨0, [7, 8], ⟨[], []⟩, [3, 4], [5], [3, 4, 5], []⟩⟩).count
      (Event.SetUp 5) = 1 :=
  ⟨by decide,
   (C2_lifecycle_sweeps_in_order
      ⟨fun p => ⟨"c", none, p != 4⟩, [], ⟨0, [7, 8], ⟨[], []⟩, [3, 4], [5], [3, 4, 5], []⟩⟩).2.2.2.2.2
      (by decide) 5 (by decide) (by decide) Event.SetUp (by simp)⟩

/-- C2, as first stated, fails: the sweeps do not de-duplicate.  On a Robot whose
moving collection holds the lifecycle-capable object 7, which is also registered
as its non-joint provider, `Initialize(); SetUp(); Terminate()` calls every phase
twice on that object, not once. -/
theorem C2_listed_twice_called_twice :
    ((Robot.Terminate (Robot.SetUp (Robot.Initialize
        ⟨fun _ => ⟨"motor", some 0, true⟩, [],
          ⟨0, [7], ⟨[], []⟩, [7], [], [7], [("motor", 0)]⟩⟩))).trace.count
        (Event.Initialize 7) = 2) ∧
    ((Robot.Terminate (Robot.SetUp (Robot.Initialize
        ⟨fun _ => ⟨"motor", some 0, true⟩, [],
          ⟨0, [7], ⟨[], []⟩, [7], [], [7], [("motor", 0)]⟩⟩))).trace.count
        (Event.SetUp 7) = 2) ∧
    ((Robot.Terminate (Robot.SetUp (Robot.Initialize
        ⟨fun _ => ⟨"motor", some 0, true⟩, [],
          ⟨0, [7], ⟨[], []⟩, [7], [], [7], [("motor", 0)]⟩⟩))).trace.count
        (Event.Terminate 7) = 2) ∧
    ¬ ((Robot.Terminate (Robot.SetUp (Robot.Initialize
        ⟨fun _ => ⟨"motor", some 0, true⟩, [],
          ⟨0, [7], ⟨[], []⟩, [7], [], [7], [("motor", 0)]⟩⟩))).trace.count
        (Event.Initialize 7) = 1) ∧
    (Robot.Terminate (Robot.SetUp (Robot.Initialize
        ⟨fun _ => ⟨"motor", some 0, true⟩, [],
          ⟨0, [7], ⟨[], []⟩, [7], [], [7], [("motor", 0)]⟩⟩))).trace =
      [Event.Initialize 7, Event.Initialize 7, Event.SetUp 7, Event.SetUp 7,
        Event.Terminate 7, Event.Terminate 7] := by
  refine ⟨by decide, by decide, by decide, by decide, by decide⟩

/-- C3: `UpdateAllStates()` emits one `RequestStateUpdate` for every entry of the
non-joint sub-list, in the order of that sub-list, and then one refresh of the
model, which is the last call; the model is replaced by its refreshed value and
nothing else changes.  A provider outside the non-joint sub-list receives no
`RequestStateUpdate`; in a state reached from a freshly constructed Robot that is
the case of every joint provider. -/
theorem C3_update_all_states_trace (refresh : Model → Model) (w : World) :
    (Robot.UpdateAllStates refresh w).trace =
      w.trace ++ (w.robot.non_joint_state_providers_.map Event.RequestStateUpdate ++
        [Event.ModelUpdateJointStates]) ∧
    (Robot.UpdateAllStates refresh w).heap = w.heap ∧
    (Robot.UpdateAllStates refresh w).robot = { w.robot with model_ := refresh w.robot.model_ } ∧
    (∀ c : Ptr,
      (w.robot.non_joint_state_providers_.map Event.RequestStateUpdate ++
        [Event.ModelUpdateJointStates]).count (Event.RequestStateUpdate c) =
      w.robot.non_joint_state_providers_.count c) ∧
    (w.robot.non_joint_state_providers_.map Event.RequestStateUpdate ++
        [Event.ModelUpdateJointStates]).count Event.ModelUpdateJointStates = 1 ∧
    (∀ i : Nat,
      (w.robot.non_joint_state_providers_.map Event.RequestStateUpdate ++
        [Event.ModelUpdateJointStates])[i]? = some Event.ModelUpdateJointStates ↔
      i = w.robot.non_joint_state_providers_.length) ∧
    (∀ c : Ptr, c ∉ w.robot.non_joint_state_providers_ →
      Event.RequestStateUpdate c ∉
        w.robot.non_joint_state_providers_.map Event.RequestStateUpdate ++
          [Event.ModelUpdateJointStates]) ∧
    (∀ (heap : Ptr → Component) (trace : List Event) (fresh_model : Model)
        (config : RobotConfiguration) (ops : List Op),
      run refresh ops (World.fresh heap trace fresh_model config) = .ok w →
      ∀ c ∈ w.robot.joint_state_providers_,
        Event.RequestStateUpdate c ∉
          w.robot.non_joint_state_providers_.map Event.RequestStateUpdate ++
            [Event.ModelUpdateJointStates]) := by
  have hR : Function.Injective Event.RequestStateUpdate := fun a b h => by injection h
  have hnot : ∀ c : Ptr, c ∉ w.robot.non_joint_state_providers_ →
      Event.RequestStateUpdate c ∉
        w.robot.non_joint_state_providers_.map Event.RequestStateUpdate ++
          [Event.ModelUpdateJointStates] := by
    intro c hc hmem
    simp only [List.mem_append, List.mem_map, List.mem_singleton] at hmem
    rcases hmem with ⟨a, ha, hac⟩ | h
    · injection hac with hac
      subst hac
      exact hc ha
    · cases h
  refine ⟨?_, rfl, rfl, ?_, ?_, ?_, hnot, ?_⟩
  · simp [Robot.UpdateAllStates, update_loop_eq]
  · intro c
    rw [List.count_append, List.count_map_of_injective _ _ hR]
    simp
  · rw [List.count_append]
    have : (w.robot.non_joint_state_providers_.map Event.RequestStateUpdate).count
        Event.ModelUpdateJointStates = 0 := by
      rw [List.count_eq_zero]
      intro hc
      rw [List.mem_map] at hc
      obtain ⟨a, -, ha⟩ := hc
      cases ha
    rw [this]
    simp
  · intro i
    rw [getElem?_snoc_eq_some, List.length_map]
    constructor
    · rintro (h | ⟨h, -⟩)
      · rw [List.getElem?_map] at h
        cases hx : w.robot.non_joint_state_providers_[i]? with
        | none => rw [hx] at h; cases h
        | some x => rw [hx] at h; cases h
      · exact h
    · intro h
      exact Or.inr ⟨h, rfl⟩
  · intro heap trace fresh_model config ops hrun c hc
    apply hnot
    have hinv := inv_run refresh ops (inv_fresh heap trace fresh_model config) hrun
    have hnd := hinv.sub_lists_nodup
    rw [List.nodup_append] at hnd
    exact fun h => hnd.2.2 h hc

theorem C3_update_all_states_trace_witness :
    ∃ w, run id [Op.RegisterStateProvider 3 false, Op.Initialize,
        Op.RegisterStateProvider 5 true, Op.UpdateAllStates]
        (World.fresh (fun _ => ⟨"c", none, true⟩) [] ⟨[], []⟩ 0) = .ok w ∧
      w.robot.joint_state_providers_ = [5] ∧
      Event.RequestStateUpdate 5 ∉
        w.robot.non_joint_state_providers_.map Event.RequestStateUpdate ++
          [Event.ModelUpdateJointStates] := by
  obtain ⟨w, hw, hj⟩ : ∃ w, run id [Op.RegisterStateProvider 3 false, Op.Initialize,
        Op.RegisterStateProvider 5 true, Op.UpdateAllStates]
        (World.fresh (fun _ => ⟨"c", none, true⟩) [] ⟨[], []⟩ 0) = .ok w ∧
      w.robot.joint_state_providers_ = [5] := ⟨_, rfl, rfl⟩
  exact ⟨w, hw, hj, (C3_update_all_states_trace id w).2.2.2.2.2.2.2 _ _ _ _ _ hw 5
    (by rw [hj]; simp)⟩

/-! ## Double registration -/

/-- A call that is not the registration of `q` leaves `q` and its listings alone. -/
theorem step_frame (refresh : Model → Model) {op : Op} {w w1 : World} (q : Ptr)
    (h : step refresh op w = .ok w1) (hop : ∀ j, op ≠ Op.RegisterStateProvider q j) :
    w1.heap q = w.heap q ∧
    w1.robot.registered_components_.count q = w.robot.registered_components_.count q ∧
    w1.robot.non_joint_state_providers_.count q =
      w.robot.non_joint_state_providers_.count q ∧
    w1.robot.joint_state_providers_.count q = w.robot.joint_state_providers_.count q := by
  cases op with
  | RegisterStateProvider sp j =>
    have hne : q ≠ sp := by
      intro hc; subst hc; exact hop j rfl
    have hne1 : ¬ (sp = q) := fun hc => hne hc.symm
    obtain ⟨-, hheap, -, hreg, -, hnj, hj, -, -, -⟩ := register_ok_fields h
    refine ⟨?_, ?_, ?_, ?_⟩
    · rw [hheap]; simp [Function.update, hne]
    · rw [hreg, List.count_append]; simp [List.count_singleton, hne1]
    · rw [hnj]; cases j <;> simp [List.count_append, List.count_singleton, hne1]
    · rw [hj]; cases j <;> simp [List.count_append, List.count_singleton, hne1]
  | Initialize => injection h with h; subst h; exact ⟨rfl, rfl, rfl, rfl⟩
  | SetUp => injection h with h; subst h; exact ⟨rfl, rfl, rfl, rfl⟩
  | Terminate => injection h with h; subst h; exact ⟨rfl, rfl, rfl, rfl⟩
  | UpdateAllStates => injection h with h; subst h; exact ⟨rfl, rfl, rfl, rfl⟩
  | UpdateJointStates => injection h with h; subst h; exact ⟨rfl, rfl, rfl, rfl⟩

/-- Registering a provider that already holds a position violates the assertion. -/
theorem register_registered_fails (w : World) (sp : Ptr) (j : Bool)
    (h : (w.heap sp).index_ ≠ none) :
    Robot.RegisterStateProvider w sp j = .error Failure.assertion_failed := by
  unfold Robot.RegisterStateProvider
  have : (w.heap sp).IsRegistered = true := by
    cases hi : (w.heap sp).index_ with
    | none => exact absurd hi h
    | some i => simp [Component.IsRegistered, hi]
  simp [this]

/-- A provider that holds a position keeps it, and its listings, through any run. -/
theorem run_keeps_registered (refresh : Model → Model) (ops : List Op) {w w1 : World}
    (sp : Ptr) (hsp : (w.heap sp).index_ ≠ none) (h : run refresh ops w = .ok w1) :
    w1.heap sp = w.heap sp ∧
    w1.robot.registered_components_.count sp = w.robot.registered_components_.count sp ∧
    w1.robot.non_joint_state_providers_.count sp =
      w.robot.non_joint_state_providers_.count sp ∧
    w1.robot.joint_state_providers_.count sp = w.robot.joint_state_providers_.count sp ∧
    ∀ j, Op.RegisterStateProvider sp j ∉ ops := by
  induction ops generalizing w with
  | nil =>
    injection h with h; subst h; simp
  | cons op rest ih =>
    simp only [run] at h
    cases hs : step refresh op w with
    | error e => rw [hs] at h; cases h
    | ok w2 =>
      rw [hs] at h
      have hop : ∀ j, op ≠ Op.RegisterStateProvider sp j := by
        intro j hc
        subst hc
        have := register_registered_fails w sp j hsp
        simp only [step] at hs
        rw [this] at hs
        cases hs
      obtain ⟨f1, f2, f3, f4⟩ := step_frame refresh sp hs hop
      obtain ⟨g1, g2, g3, g4, g5⟩ := ih (by rw [f1]; exact hsp) h
      refine ⟨by rw [g1, f1], by rw [g2, f2], by rw [g3, f3], by rw [g4, f4], ?_⟩
      intro j hmem
      rcases List.mem_cons.mp hmem with hc | hc
      · exact hop j hc.symm
      · exact g5 j hc

/-- C4: once `RegisterStateProvider(p, f1)` has succeeded, the provider holds its
position for good: after any further calls a second `RegisterStateProvider(p, f2)`
violates the registration assertion, on this Robot and on any other Robot, so no
state follows in which `p` is appended again; between the two calls the number of
occurrences of `p` in the registry and in both sub-lists stays what the first
registration made it. -/
theorem C4_second_registration_fails (refresh : Model → Model) (w w1 w2 : World)
    (sp : Ptr) (f1 f2 : Bool) (ops : List Op)
    (h1 : Robot.RegisterStateProvider w sp f1 = .ok w1)
    (h2 : run refresh ops w1 = .ok w2) :
    Robot.RegisterStateProvider w2 sp f2 = .error Failure.assertion_failed ∧
    (∀ (r : Robot) (t : List Event),
      Robot.RegisterStateProvider { heap := w2.heap, trace := t, robot := r } sp f2 =
        .error Failure.assertion_failed) ∧
    (w2.heap sp).IsRegistered = true ∧
    w2.robot.registered_components_.count sp =
      w.robot.registered_components_.count sp + 1 ∧
    w2.robot.non_joint_state_providers_.count sp +
        w2.robot.joint_state_providers_.count sp =
      w.robot.non_joint_state_providers_.count sp +
        w.robot.joint_state_providers_.count sp + 1 := by
  obtain ⟨-, hheap, -, hreg, -, hnj, hj, -, -, -⟩ := register_ok_fields h1
  have hsp1 : (w1.heap sp).index_ ≠ none := by
    rw [hheap]; simp
  obtain ⟨g1, g2, g3, g4, -⟩ := run_keeps_registered refresh ops sp hsp1 h2
  have hsp2 : (w2.heap sp).index_ ≠ none := by rw [g1]; exact hsp1
  refine ⟨register_registered_fails w2 sp f2 hsp2, ?_, ?_, ?_, ?_⟩
  · intro r t
    exact register_registered_fails _ sp f2 hsp2
  · cases hi : (w2.heap sp).index_ with
    | none => exact absurd hi hsp2
    | some i => simp [Component.IsRegistered, hi]
  · rw [g2, hreg, List.count_append]; simp
  · rw [g3, g4, hnj, hj]
    cases f1 <;> simp [List.count_append] <;> omega

theorem C4_second_registration_fails_witness :
    ∃ w1 w2,
      Robot.RegisterStateProvider
        (World.fresh (fun _ => ⟨"ft", none, true⟩) [] ⟨[], []⟩ 0) 3 false = .ok w1 ∧
      run id [Op.Initialize, Op.RegisterStateProvider 4 true, Op.UpdateAllStates] w1 = .ok w2 ∧
      Robot.RegisterStateProvider w2 3 true = .error Failure.assertion_failed := by
  obtain ⟨w1, w2, h1, h2⟩ : ∃ w1 w2,
      Robot.RegisterStateProvider
        (World.fresh (fun _ => ⟨"ft", none, true⟩) [] ⟨[], []⟩ 0) 3 false = .ok w1 ∧
      run id [Op.Initialize, Op.RegisterStateProvider 4 true, Op.UpdateAllStates] w1 = .ok w2 :=
    ⟨_, _, rfl, rfl⟩
  exact ⟨w1, w2, h1, h2, (C4_second_registration_fails id _ w1 w2 3 false true _ h1 h2).1⟩

/-! ## Force/torque sensor -/

theorem length_vector_neg {α : Type} [Neg α] (v : List α) :
    (vector_neg v).length = v.length := by
  induction v with
  | nil => rfl
  | cons x rest ih => simp [vector_neg, ih]

theorem getElem?_vector_neg {α : Type} [Neg α] (v : List α) (i : Nat) :
    (vector_neg v)[i]? = (v[i]?).map (fun x => -x) := by
  induction v generalizing i with
  | nil => simp [vector_neg]
  | cons x rest ih =>
    cases i with
    | zero => simp [vector_neg]
    | succ k => simp [vector_neg, ih]

/-- C5: `GetValue()` returns the cached wrench itself when
`reverse_wrench_direction_` is false and its coefficient-wise negation (same
length, every coefficient negated) when it is true; `GetNewState(buffer)` on a
destination of the shape of the wrench leaves in it the vector `GetValue()`
returns.  For the cached sample [1,2,3,4,5,6] the two reads are [1,2,3,4,5,6]
and [-1,-2,-3,-4,-5,-6]. -/
theorem C5_get_value_sign_convention {α : Type} [Neg α] (name : String)
    (w buffer : List α) (hshape : buffer.length = w.length) :
    ForceTorqueSensor.GetValue ⟨name, false, w⟩ = w ∧
    (ForceTorqueSensor.GetValue ⟨name, true, w⟩).length = w.length ∧
    (∀ i : Nat, (ForceTorqueSensor.GetValue ⟨name, true, w⟩)[i]? =
      (w[i]?).map (fun x => -x)) ∧
    (∀ reverse : Bool, ForceTorqueSensor.GetNewState ⟨name, reverse, w⟩ buffer =
      .ok (ForceTorqueSensor.GetValue ⟨name, reverse, w⟩)) ∧
    ForceTorqueSensor.GetValue (⟨name, false, [1, 2, 3, 4, 5, 6]⟩ : ForceTorqueSensor Int) =
      [1, 2, 3, 4, 5, 6] ∧
    ForceTorqueSensor.GetValue (⟨name, true, [1, 2, 3, 4, 5, 6]⟩ : ForceTorqueSensor Int) =
      [-1, -2, -3, -4, -5, -6] := by
  refine ⟨rfl, ?_, ?_, ?_, rfl, rfl⟩
  · simp [ForceTorqueSensor.GetValue, length_vector_neg]
  · intro i
    simp [ForceTorqueSensor.GetValue, getElem?_vector_neg]
  · intro reverse
    cases reverse <;>
      simp [ForceTorqueSensor.GetNewState, ForceTorqueSensor.GetValue, length_vector_neg, hshape]

theorem C5_get_value_sign_convention_witness :
    ([0, 0, 0, 0, 0, 0] : List Int).length = ([1, 2, 3, 4, 5, 6] : List Int).length ∧
    ForceTorqueSensor.GetNewState (⟨"ft_left", true, [1, 2, 3, 4, 5, 6]⟩ : ForceTorqueSensor Int)
      [0, 0, 0, 0, 0, 0] = .ok [-1, -2, -3, -4, -5, -6] :=
  ⟨by decide,
   ((C5_get_value_sign_convention "ft_left" ([1, 2, 3, 4, 5, 6] : List Int)
      [0, 0, 0, 0, 0, 0] (by decide)).2.2.2.1 true).trans rfl⟩

/-- C6: `RequestStateUpdate()` stores the raw wrench delivered by the driver as it
is, whatever `reverse_wrench_direction_` holds, and changes no other member; for
the stored sample, the read with the flag true is the coefficient-wise negation
of the read with the flag false, which is the raw sample. -/
theorem C6_capture_stores_raw_wrench {α : Type} [Neg α] (s : ForceTorqueSensor α)
    (raw : List α) :
    (ForceTorqueSensor.RequestStateUpdate raw s).wrench_ = raw ∧
    (ForceTorqueSensor.RequestStateUpdate raw s).reverse_wrench_direction_ =
      s.reverse_wrench_direction_ ∧
    (ForceTorqueSensor.RequestStateUpdate raw s).name_ = s.name_ ∧
    (∀ reverse : Bool,
      (ForceTorqueSensor.RequestStateUpdate raw
        { s with reverse_wrench_direction_ := reverse }).wrench_ =
      (ForceTorqueSensor.RequestStateUpdate raw s).wrench_) ∧
    ForceTorqueSensor.GetValue
      { ForceTorqueSensor.RequestStateUpdate raw s with reverse_wrench_direction_ := false } =
      raw ∧
    ForceTorqueSensor.GetValue
      { ForceTorqueSensor.RequestStateUpdate raw s with reverse_wrench_direction_ := true } =
      vector_neg (ForceTorqueSensor.GetValue
        { ForceTorqueSensor.RequestStateUpdate raw s with
          reverse_wrench_direction_ := false }) ∧
    (∀ i : Nat,
      (ForceTorqueSensor.GetValue
        { ForceTorqueSensor.RequestStateUpdate raw s with
          reverse_wrench_direction_ := true })[i]? =
      ((ForceTorqueSensor.GetValue
        { ForceTorqueSensor.RequestStateUpdate raw s with
          reverse_wrench_direction_ := false })[i]?).map (fun x => -x)) := by
  refine ⟨rfl, rfl, rfl, fun _ => rfl, rfl, rfl, ?_⟩
  intro i
  simp [ForceTorqueSensor.GetValue, ForceTorqueSensor.RequestStateUpdate, getElem?_vector_neg]

/-! ## Name lookup -/

/-- Among the entries of a list that satisfy `P`, one comes last. -/
theorem exists_last_getElem? {l : List Ptr} (P : Ptr → Prop) (h : ∃ x ∈ l, P x) :
    ∃ (i : Nat) (x : Ptr), l[i]? = some x ∧ P x ∧
      ∀ (k : Nat) (y : Ptr), i < k → l[k]? = some y → ¬ P y := by
  induction l with
  | nil =>
    obtain ⟨x, hx, -⟩ := h
    cases hx
  | cons a rest ih =>
    by_cases hr : ∃ x ∈ rest, P x
    · obtain ⟨i, x, hi, hx, hlast⟩ := ih hr
      refine ⟨i + 1, x, by simpa using hi, hx, ?_⟩
      intro k y hk hy
      cases k with
      | zero => omega
      | succ k1 =>
        rw [List.getElem?_cons_succ] at hy
        exact hlast k1 y (by omega) hy
    · obtain ⟨x, hx, hpx⟩ := h
      rcases List.mem_cons.mp hx with hxa | hxr
      · subst hxa
        refine ⟨0, x, by simp, hpx, ?_⟩
        intro k y hk hy hpy
        cases k with
        | zero => omega
        | succ k1 =>
          rw [List.getElem?_cons_succ] at hy
          exact hr ⟨y, List.getElem?_mem hy, hpy⟩
      · exact absurd ⟨x, hxr, hpx⟩ hr

/-- What holds after registrations on a freshly constructed Robot. -/
theorem fresh_register_all_facts {heap : Ptr → Component} {trace : List Event}
    {fresh_model : Model} {config : RobotConfiguration} {regs : List (Ptr × Bool)}
    {w : World}
    (h : register_all regs (World.fresh heap trace fresh_model config) = .ok w) :
    RegistryInv w ∧
    w.robot.registered_components_ = regs.map Prod.fst ∧
    (∀ q, (w.heap q).name_ = (heap q).name_) := by
  obtain ⟨hreg, -, -, -, -, -, -, hname, -⟩ := register_all_fields regs h
  refine ⟨inv_register_all regs (inv_fresh heap trace fresh_model config) h, ?_, ?_⟩
  · rw [hreg]; simp [World.fresh, Robot.new]
  · intro q; rw [hname]; rfl

/-- The registry of a world that satisfies the invariant lists no object twice. -/
theorem registry_position_unique {w : World} (hinv : RegistryInv w) {i k : Nat} {p : Ptr}
    (hi : w.robot.registered_components_[i]? = some p)
    (hk : w.robot.registered_components_[k]? = some p) : i = k := by
  have h1 := hinv.index_at i p hi
  have h2 := hinv.index_at k p hk
  rw [h1] at h2
  injection h2

theorem getElem?_map_fst {regs : List (Ptr × Bool)} {i : Nat} {p : Ptr}
    (h : (regs.map Prod.fst)[i]? = some p) : ∃ j, regs[i]? = some (p, j) := by
  rw [List.getElem?_map] at h
  cases hr : regs[i]? with
  | none => rw [hr] at h; cases h
  | some r =>
    rw [hr] at h
    simp only [Option.map_some', Option.some.injEq] at h
    exact ⟨r.2, by rw [← h]⟩

/-- C7: after registering distinct providers, none registered before, in order on
a freshly constructed Robot (names may repeat): every provider is returned by
`GetComponent(index)` for the index it was assigned; `GetComponent(s)` returns
the provider named `s` that was registered last; a provider followed by a later
registration of the same name is returned by no name lookup. -/
theorem C7_name_lookup_returns_latest (heap : Ptr → Component) (trace : List Event)
    (fresh_model : Model) (config : RobotConfiguration) (regs : List (Ptr × Bool))
    (hdistinct : (regs.map Prod.fst).Nodup)
    (hnew : ∀ r ∈ regs, (heap r.1).IsRegistered = false) :
    ∃ w, register_all regs (World.fresh heap trace fresh_model config) = .ok w ∧
      ∀ (i : Nat) (sp : Ptr) (j : Bool), regs[i]? = some (sp, j) →
        (w.heap sp).index_ = some i ∧
        Robot.GetComponent_id w.robot i = .ok sp ∧
        ((∀ (k : Nat) (q : Ptr) (jq : Bool), i < k → regs[k]? = some (q, jq) →
            (heap q).name ≠ (heap sp).name) →
          Robot.GetComponent w.robot (heap sp).name = .ok sp) ∧
        ((∃ (k : Nat) (q : Ptr) (jq : Bool), i < k ∧ regs[k]? = some (q, jq) ∧
            (heap q).name = (heap sp).name) →
          ∀ s : String, Robot.GetComponent w.robot s ≠ .ok sp) := by
  have hnew1 : ∀ r ∈ regs,
      ((World.fresh heap trace fresh_model config).heap r.1).index_ = none := by
    intro r hr
    have := hnew r hr
    simpa [Component.IsRegistered, World.fresh] using this
  obtain ⟨w, hw⟩ := register_all_succeeds regs _ hdistinct hnew1
  refine ⟨w, hw, ?_⟩
  obtain ⟨hinv, hreg, hname⟩ := fresh_register_all_facts hw
  intro i sp j hi
  have hsp : w.robot.registered_components_[i]? = some sp := by
    rw [hreg, List.getElem?_map, hi]; rfl
  have hid : Robot.GetComponent_id w.robot i = .ok sp := by
    simp [Robot.GetComponent_id, hsp]
  refine ⟨hinv.index_at i sp hsp, hid, ?_, ?_⟩
  · intro hlast
    have hat : w.robot.name_to_index_.at (heap sp).name = some i := by
      rw [hinv.name_at]
      refine ⟨⟨sp, hsp, hname sp⟩, ?_⟩
      intro k q hk hq hc
      rw [hreg] at hq
      obtain ⟨jq, hq1⟩ := getElem?_map_fst hq
      apply hlast k q jq hk hq1
      rw [Component.name, ← hname q, hc]
    simp [Robot.GetComponent, hat, hid]
  · rintro ⟨k, q, jq, hk, hq, hqn⟩ s hget
    unfold Robot.GetComponent at hget
    cases hat : w.robot.name_to_index_.at s with
    | none => rw [hat] at hget; cases hget
    | some i1 =>
      rw [hat] at hget
      simp only [Robot.GetComponent_id] at hget
      cases hi1 : w.robot.registered_components_[i1]? with
      | none => rw [hi1] at hget; cases hget
      | some p =>
        rw [hi1] at hget
        injection hget with hp
        subst hp
        have hii : i1 = i := registry_position_unique hinv hi1 hsp
        subst hii
        obtain ⟨⟨p1, hp1, hp1n⟩, hlast⟩ := (hinv.name_at s i1).mp hat
        rw [hsp] at hp1
        injection hp1 with hp1
        subst hp1
        have hqreg : w.robot.registered_components_[k]? = some q := by
          rw [hreg, List.getElem?_map, hq]; rfl
        apply hlast k q hk hqreg
        rw [hname q, ← hp1n, hname p]
        exact hqn

theorem C7_name_lookup_returns_latest_witness :
    ([((3 : Ptr), false), (4, true), (5, false)].map Prod.fst).Nodup ∧
    ∃ w, register_all [((3 : Ptr), false), (4, true), (5, false)]
        (World.fresh (fun p => ⟨if p = 4 then "knee" else "ft", none, false⟩) [] ⟨[], []⟩ 0)
          = .ok w ∧
      Robot.GetComponent w.robot "ft" = .ok 5 ∧
      Robot.GetComponent_id w.robot 0 = .ok 3 ∧
      ∀ s : String, Robot.GetComponent w.robot s ≠ .ok 3 := by
  refine ⟨by decide, ?_⟩
  obtain ⟨w, hw, hall⟩ := C7_name_lookup_returns_latest
    (fun p => ⟨if p = 4 then "knee" else "ft", none, false⟩) [] ⟨[], []⟩ 0
    [((3 : Ptr), false), (4, true), (5, false)] (by decide) (by decide)
  refine ⟨w, hw, ?_, (hall 0 3 false rfl).2.1, ?_⟩
  · apply (hall 2 5 false rfl).2.2.1
    intro k q jq hk hq
    have := getElem?_lt_of_eq_some hq
    simp at this
    omega
  · exact (hall 0 3 false rfl).2.2.2 ⟨2, 5, false, by decide, rfl, rfl⟩

/-- C8: on a Robot reached from a freshly constructed one by registrations,
`GetComponent(s)` throws `std::out_of_range` exactly when no registered provider
is named `s`; otherwise it returns a registered provider named `s`.  On a Robot
without registrations it throws for every name. -/
theorem C8_name_lookup_fails_iff_absent (heap : Ptr → Component) (trace : List Event)
    (fresh_model : Model) (config : RobotConfiguration) (regs : List (Ptr × Bool))
    (w : World)
    (h : register_all regs (World.fresh heap trace fresh_model config) = .ok w)
    (s : String) :
    ((∃ e, Robot.GetComponent w.robot s = .error e) ↔
      ∀ r ∈ regs, (heap r.1).name ≠ s) ∧
    ((∀ r ∈ regs, (heap r.1).name ≠ s) →
      Robot.GetComponent w.robot s = .error Failure.out_of_range) ∧
    ((∃ r ∈ regs, (heap r.1).name = s) →
      ∃ p, Robot.GetComponent w.robot s = .ok p ∧ p ∈ regs.map Prod.fst ∧
        (heap p).name = s) ∧
    Robot.GetComponent (Robot.new fresh_model config) s = .error Failure.out_of_range := by
  obtain ⟨hinv, hreg, hname⟩ := fresh_register_all_facts h
  have habsent : (∀ r ∈ regs, (heap r.1).name ≠ s) →
      Robot.GetComponent w.robot s = .error Failure.out_of_range := by
    intro hno
    cases hat : w.robot.name_to_index_.at s with
    | none => simp [Robot.GetComponent, hat]
    | some i =>
      exfalso
      obtain ⟨⟨p, hp, hpn⟩, -⟩ := (hinv.name_at s i).mp hat
      rw [hreg] at hp
      obtain ⟨j, hj⟩ := getElem?_map_fst hp
      apply hno (p, j) (List.getElem?_mem hj)
      rw [Component.name, ← hname p]
      exact hpn
  have hpresent : (∃ r ∈ regs, (heap r.1).name = s) →
      ∃ p, Robot.GetComponent w.robot s = .ok p ∧ p ∈ regs.map Prod.fst ∧
        (heap p).name = s := by
    rintro ⟨r, hr, hrn⟩
    have hex : ∃ x ∈ w.robot.registered_components_, (w.heap x).name_ = s := by
      refine ⟨r.1, ?_, ?_⟩
      · rw [hreg]; exact List.mem_map_of_mem Prod.fst hr
      · rw [hname]; exact hrn
    obtain ⟨i, x, hi, hx, hlast⟩ := exists_last_getElem? (fun x => (w.heap x).name_ = s) hex
    have hat : w.robot.name_to_index_.at s = some i :=
      (hinv.name_at s i).mpr ⟨⟨x, hi, hx⟩, hlast⟩
    refine ⟨x, ?_, ?_, ?_⟩
    · simp [Robot.GetComponent, Robot.GetComponent_id, hat, hi]
    · rw [← hreg]; exact List.getElem?_mem hi
    · rw [Component.name, ← hname x]; exact hx
  refine ⟨⟨?_, fun hno => ⟨_, habsent hno⟩⟩, habsent, hpresent, ?_⟩
  · rintro ⟨e, he⟩ r hr hrn
    obtain ⟨p, hp, -⟩ := hpresent ⟨r, hr, hrn⟩
    rw [hp] at he
    cases he
  · simp [Robot.GetComponent, Robot.new, NameMap.at]

theorem C8_name_lookup_fails_iff_absent_witness :
    ∃ w, register_all [((3 : Ptr), false), (4, true)]
        (World.fresh (fun p => ⟨if p = 4 then "knee" else "ft", none, false⟩) [] ⟨[], []⟩ 0)
          = .ok w ∧
      ((∃ e, Robot.GetComponent w.robot "hip" = .error e) ↔
        ∀ r ∈ [((3 : Ptr), false), (4, true)],
          ((fun p => (⟨if p = 4 then "knee" else "ft", none, false⟩ : Component)) r.1).name
            ≠ "hip") := by
  obtain ⟨w, hw⟩ : ∃ w, register_all [((3 : Ptr), false), (4, true)]
        (World.fresh (fun p => ⟨if p = 4 then "knee" else "ft", none, false⟩) [] ⟨[], []⟩ 0)
          = .ok w := ⟨_, rfl⟩
  exact ⟨w, hw, (C8_name_lookup_fails_iff_absent _ [] ⟨[], []⟩ 0 _ w hw "hip").1⟩

/-! ## Registry positions and sub-lists -/

/-- C9: in every state reached from a freshly constructed Robot by
`RegisterStateProvider`, `Initialize`, `SetUp`, `Terminate`, `UpdateAllStates`
and `UpdateJointStates` calls, the component at registry position `i` carries
index `i` and is what `GetComponent(i)` returns, two different registered
components carry different indices, the registry lists no component twice, and
a further call changes the index of a component only if it is the registration
of that component, which is no longer possible once the component is in the
registry. -/
theorem C9_index_is_registry_position (refresh : Model → Model) (heap : Ptr → Component)
    (trace : List Event) (fresh_model : Model) (config : RobotConfiguration)
    (ops : List Op) (w : World)
    (h : run refresh ops (World.fresh heap trace fresh_model config) = .ok w) :
    (∀ (i : Nat) (p : Ptr), w.robot.registered_components_[i]? = some p →
      (w.heap p).index_ = some i ∧ Robot.GetComponent_id w.robot i = .ok p) ∧
    (∀ p ∈ w.robot.registered_components_, ∀ q ∈ w.robot.registered_components_,
      p ≠ q → (w.heap p).index_ ≠ (w.heap q).index_) ∧
    w.robot.registered_components_.Nodup ∧
    (∀ (op : Op) (w1 : World) (q : Ptr), step refresh op w = .ok w1 →
      (∀ j, op ≠ Op.RegisterStateProvider q j) →
      (w1.heap q).index_ = (w.heap q).index_) ∧
    (∀ (op : Op) (w1 : World) (q : Ptr), step refresh op w = .ok w1 →
      q ∈ w.robot.registered_components_ →
      (w1.heap q).index_ = (w.heap q).index_) := by
  have hinv := inv_run refresh ops (inv_fresh heap trace fresh_model config) h
  have hframe : ∀ (op : Op) (w1 : World) (q : Ptr), step refresh op w = .ok w1 →
      (∀ j, op ≠ Op.RegisterStateProvider q j) →
      (w1.heap q).index_ = (w.heap q).index_ := by
    intro op w1 q hs hop
    rw [(step_frame refresh q hs hop).1]
  refine ⟨?_, ?_, ?_, hframe, ?_⟩
  · intro i p hp
    exact ⟨hinv.index_at i p hp, by simp [Robot.GetComponent_id, hp]⟩
  · intro p hp q hq hne hidx
    obtain ⟨i, hi⟩ := List.getElem?_of_mem hp
    obtain ⟨k, hk⟩ := List.getElem?_of_mem hq
    rw [hinv.index_at i p hi, hinv.index_at k q hk] at hidx
    injection hidx with hik
    subst hik
    rw [hi] at hk
    injection hk with hk
    exact hne hk
  · rw [List.nodup_iff_getElem?_ne_getElem?]
    intro i k hik hk heq
    obtain ⟨p, hp⟩ : ∃ p, w.robot.registered_components_[k]? = some p :=
      ⟨_, List.getElem?_eq_getElem hk⟩
    have := registry_position_unique hinv (heq.trans hp) hp
    omega
  · intro op w1 q hs hq
    apply hframe op w1 q hs
    intro j hc
    subst hc
    obtain ⟨i, hi⟩ := List.getElem?_of_mem hq
    have hidx := hinv.index_at i q hi
    have hfail := register_registered_fails w q j (by rw [hidx]; simp)
    simp only [step] at hs
    rw [hfail] at hs
    cases hs

theorem C9_index_is_registry_position_witness :
    ∃ w, run id [Op.RegisterStateProvider 3 false, Op.Initialize,
        Op.RegisterStateProvider 5 true, Op.SetUp, Op.UpdateAllStates,
        Op.RegisterStateProvider 4 false, Op.UpdateJointStates, Op.Terminate]
        (World.fresh (fun _ => ⟨"c", none, true⟩) [] ⟨[], []⟩ 0) = .ok w ∧
      w.robot.registered_components_ = [3, 5, 4] ∧
      (w.heap 4).index_ = some 2 := by
  obtain ⟨w, hw, hr⟩ : ∃ w, run id [Op.RegisterStateProvider 3 false, Op.Initialize,
        Op.RegisterStateProvider 5 true, Op.SetUp, Op.UpdateAllStates,
        Op.RegisterStateProvider 4 false, Op.UpdateJointStates, Op.Terminate]
        (World.fresh (fun _ => ⟨"c", none, true⟩) [] ⟨[], []⟩ 0) = .ok w ∧
      w.robot.registered_components_ = [3, 5, 4] := ⟨_, rfl, rfl⟩
  exact ⟨w, hw, hr,
    ((C9_index_is_registry_position id _ [] ⟨[], []⟩ 0 _ w hw).1 2 4 (by rw [hr]; rfl)).1⟩

/-- C10: after the registrations `regs` on a freshly constructed Robot the
registry is the list of the registered providers in call order, the joint
sub-list is the sub-sequence of those registered with the flag true and the
non-joint sub-list the sub-sequence of those registered with the flag false, and
the moving collection and the model are those of the fresh Robot.  A single
registration, in any state, appends the provider to the registry and to the
sub-list its flag selects, and leaves the other sub-list, the moving collection,
the model and the trace as they were. -/
theorem C10_registry_and_sub_lists (heap : Ptr → Component) (trace : List Event)
    (fresh_model : Model) (config : RobotConfiguration) (regs : List (Ptr × Bool))
    (w : World)
    (h : register_all regs (World.fresh heap trace fresh_model config) = .ok w) :
    w.robot.registered_components_ = regs.map Prod.fst ∧
    w.robot.joint_state_providers_ = (regs.filter (fun r => r.2)).map Prod.fst ∧
    w.robot.non_joint_state_providers_ = (regs.filter (fun r => !r.2)).map Prod.fst ∧
    w.robot.moving_components_ = [] ∧
    w.robot.model_ = fresh_model ∧
    (∀ (w0 w1 : World) (sp : Ptr) (j : Bool),
      Robot.RegisterStateProvider w0 sp j = .ok w1 →
      w1.robot.registered_components_ = w0.robot.registered_components_ ++ [sp] ∧
      (j = true →
        w1.robot.joint_state_providers_ = w0.robot.joint_state_providers_ ++ [sp] ∧
        w1.robot.non_joint_state_providers_ = w0.robot.non_joint_state_providers_) ∧
      (j = false →
        w1.robot.non_joint_state_providers_ = w0.robot.non_joint_state_providers_ ++ [sp] ∧
        w1.robot.joint_state_providers_ = w0.robot.joint_state_providers_) ∧
      w1.robot.moving_components_ = w0.robot.moving_components_ ∧
      w1.robot.model_ = w0.robot.model_ ∧
      w1.trace = w0.trace) := by
  obtain ⟨hreg, hnj, hj, hmv, hmod, -, -, -, -⟩ := register_all_fields regs h
  refine ⟨?_, ?_, ?_, ?_, ?_, ?_⟩
  · rw [hreg]; simp [World.fresh, Robot.new]
  · rw [hj]; simp [World.fresh, Robot.new]
  · rw [hnj]; simp [World.fresh, Robot.new]
  · rw [hmv]; rfl
  · rw [hmod]; rfl
  · intro w0 w1 sp j hs
    obtain ⟨-, -, htr, hreg0, -, hnj0, hj0, hmv0, hmod0, -⟩ := register_ok_fields hs
    refine ⟨hreg0, ?_, ?_, hmv0, hmod0, htr⟩
    · intro hjt; subst hjt
      exact ⟨by rw [hj0]; simp, by rw [hnj0]; simp⟩
    · intro hjf; subst hjf
      exact ⟨by rw [hnj0]; simp, by rw [hj0]; simp⟩

theorem C10_registry_and_sub_lists_witness :
    ∃ w, register_all [((3 : Ptr), false), (4, true), (5, false)]
        (World.fresh (fun _ => ⟨"c", none, true⟩) [] ⟨[], []⟩ 0) = .ok w ∧
      w.robot.registered_components_ = [3, 4, 5] ∧
      w.robot.joint_state_providers_ = [4] ∧
      w.robot.non_joint_state_providers_ = [3, 5] := by
  obtain ⟨w, hw⟩ : ∃ w, register_all [((3 : Ptr), false), (4, true), (5, false)]
        (World.fresh (fun _ => ⟨"c", none, true⟩) [] ⟨[], []⟩ 0) = .ok w := ⟨_, rfl⟩
  have hall := C10_registry_and_sub_lists _ [] ⟨[], []⟩ 0 _ w hw
  exact ⟨w, hw, hall.1, hall.2.1, hall.2.2.1⟩

/-! ## Joint state refresh and accessors -/

/-- C11: `UpdateJointStates()` makes exactly one call, the refresh of the model,
and replaces the model by its refreshed value; it invokes `RequestStateUpdate` on
no provider, so the heap of provider objects, the cached state of every
provider, the registry, the name map, both sub-lists, the moving collection and
the configuration are after the call what they were before it. -/
theorem C11_update_joint_states_frame (refresh : Model → Model) (w : World) :
    (Robot.UpdateJointStates refresh w).trace = w.trace ++ [Event.ModelUpdateJointStates] ∧
    (Robot.UpdateJointStates refresh w).robot.model_ = refresh w.robot.model_ ∧
    (∀ p : Ptr, Event.RequestStateUpdate p ∉ [Event.ModelUpdateJointStates]) ∧
    (∀ p : Ptr,
      (Robot.UpdateJointStates refresh w).trace.count (Event.RequestStateUpdate p) =
        w.trace.count (Event.RequestStateUpdate p)) ∧
    (∀ (initial : Ptr → List Int) (driver : Ptr → Nat → List Int) (p : Ptr),
      cached_state initial driver (Robot.UpdateJointStates refresh w).trace p =
        cached_state initial driver w.trace p) ∧
    (Robot.UpdateJointStates refresh w).heap = w.heap ∧
    (Robot.UpdateJointStates refresh w).robot.registered_components_ =
      w.robot.registered_components_ ∧
    (Robot.UpdateJointStates refresh w).robot.name_to_index_ = w.robot.name_to_index_ ∧
    (Robot.UpdateJointStates refresh w).robot.non_joint_state_providers_ =
      w.robot.non_joint_state_providers_ ∧
    (Robot.UpdateJointStates refresh w).robot.joint_state_providers_ =
      w.robot.joint_state_providers_ ∧
    (Robot.UpdateJointStates refresh w).robot.moving_components_ =
      w.robot.moving_components_ ∧
    (Robot.UpdateJointStates refresh w).robot.config_ = w.robot.config_ := by
  have hcount : ∀ p : Ptr,
      (Robot.UpdateJointStates refresh w).trace.count (Event.RequestStateUpdate p) =
        w.trace.count (Event.RequestStateUpdate p) := by
    intro p
    simp [Robot.UpdateJointStates, List.count_append, List.count_singleton]
  refine ⟨rfl, rfl, ?_, hcount, ?_, rfl, rfl, rfl, rfl, rfl, rfl, rfl⟩
  · intro p hp
    simp at hp
  · intro initial driver p
    unfold cached_state
    rw [hcount p]

/-- The model after a run is the first model refreshed once per update call. -/
theorem run_model (refresh : Model → Model) (ops : List Op) {w w1 : World}
    (h : run refresh ops w = .ok w1) :
    w1.robot.model_ = Nat.iterate refresh (refresh_calls ops) w.robot.model_ := by
  induction ops generalizing w with
  | nil =>
    injection h with h; subst h; rfl
  | cons op rest ih =>
    simp only [run] at h
    cases hs : step refresh op w with
    | error e => rw [hs] at h; cases h
    | ok w2 =>
      rw [hs] at h
      have hrest := ih h
      cases op with
      | RegisterStateProvider sp j =>
        obtain ⟨-, -, -, -, -, -, -, -, hmod, -⟩ := register_ok_fields hs
        rw [hrest, hmod]; rfl
      | Initialize => injection hs with hs; subst hs; rw [hrest]; rfl
      | SetUp => injection hs with hs; subst hs; rw [hrest]; rfl
      | Terminate => injection hs with hs; subst hs; rw [hrest]; rfl
      | UpdateAllStates => injection hs with hs; subst hs; rw [hrest]; rfl
      | UpdateJointStates => injection hs with hs; subst hs; rw [hrest]; rfl

/-- C12: `GetJointPositions()` and `GetJointVelocities()` return the position and
velocity vectors of the Robot's model as it is at the call.  Right after
`UpdateAllStates()` or `UpdateJointStates()` they return the vectors of the
refreshed model, so whenever the refresh changed a vector the read differs from
the one taken before; after any run of calls they return the vectors of the
first model refreshed once per update call made.  The accessors are `const`
and are functions of the state: they produce a value and no new state. -/
theorem C12_joint_accessors_pass_through (refresh : Model → Model) (w : World) :
    Robot.GetJointPositions w.robot = w.robot.model_.positions ∧
    Robot.GetJointVelocities w.robot = w.robot.model_.velocities ∧
    Robot.GetJointPositions (Robot.UpdateAllStates refresh w).robot =
      (refresh w.robot.model_).positions ∧
    Robot.GetJointVelocities (Robot.UpdateAllStates refresh w).robot =
      (refresh w.robot.model_).velocities ∧
    Robot.GetJointPositions (Robot.UpdateJointStates refresh w).robot =
      (refresh w.robot.model_).positions ∧
    Robot.GetJointVelocities (Robot.UpdateJointStates refresh w).robot =
      (refresh w.robot.model_).velocities ∧
    ((refresh w.robot.model_).positions ≠ w.robot.model_.positions →
      Robot.GetJointPositions (Robot.UpdateAllStates refresh w).robot ≠
        Robot.GetJointPositions w.robot ∧
      Robot.GetJointPositions (Robot.UpdateJointStates refresh w).robot ≠
        Robot.GetJointPositions w.robot) ∧
    ((refresh w.robot.model_).velocities ≠ w.robot.model_.velocities →
      Robot.GetJointVelocities (Robot.UpdateAllStates refresh w).robot ≠
        Robot.GetJointVelocities w.robot ∧
      Robot.GetJointVelocities (Robot.UpdateJointStates refresh w).robot ≠
        Robot.GetJointVelocities w.robot) ∧
    (∀ (ops : List Op) (w1 : World), run refresh ops w = .ok w1 →
      Robot.GetJointPositions w1.robot =
        (Nat.iterate refresh (refresh_calls ops) w.robot.model_).positions ∧
      Robot.GetJointVelocities w1.robot =
        (Nat.iterate refresh (refresh_calls ops) w.robot.model_).velocities) := by
  refine ⟨rfl, rfl, rfl, rfl, rfl, rfl, ?_, ?_, ?_⟩
  · intro hne
    exact ⟨hne, hne⟩
  · intro hne
    exact ⟨hne, hne⟩
  · intro ops w1 hrun
    have hm := run_model refresh ops hrun
    exact ⟨by rw [Robot.GetJointPositions, hm], by rw [Robot.GetJointVelocities, hm]⟩

theorem C12_joint_accessors_pass_through_witness :
    ∃ w1, run (fun m => ⟨m.positions.map (fun x => x + 1), m.positions⟩)
        [Op.UpdateJointStates, Op.RegisterStateProvider 3 false, Op.UpdateAllStates]
        (World.fresh (fun _ => ⟨"c", none, true⟩) [] ⟨[10, 20], [0, 0]⟩ 0) = .ok w1 ∧
      Robot.GetJointPositions w1.robot = [12, 22] ∧
      Robot.GetJointVelocities w1.robot = [11, 21] := by
  obtain ⟨w1, hw⟩ : ∃ w1, run (fun m => ⟨m.positions.map (fun x => x + 1), m.positions⟩)
        [Op.UpdateJointStates, Op.RegisterStateProvider 3 false, Op.UpdateAllStates]
        (World.fresh (fun _ => ⟨"c", none, true⟩) [] ⟨[10, 20], [0, 0]⟩ 0) = .ok w1 :=
    ⟨_, rfl⟩
  have hall := (C12_joint_accessors_pass_through
    (fun m => ⟨m.positions.map (fun x => x + 1), m.positions⟩)
    (World.fresh (fun _ => ⟨"c", none, true⟩) [] ⟨[10, 20], [0, 0]⟩ 0)).2.2.2.2.2.2.2.2 _ w1 hw
  exact ⟨w1, hw, hall.1.trans (by decide), hall.2.trans (by decide)⟩

/-! ## Constructors -/

/-- C13: the model handed to a constructor of `Robot` is dropped: whatever models
`m1` and `m2` are supplied, `Robot(config, m1)` and `Robot(config, m2)` are the
Robot that `Robot(config)` builds, whose model is the freshly made default one
(and `Robot(m1)` is the Robot that `Robot()` builds).  The joint accessors of
such a Robot read the fresh model, `UpdateJointStates()` refreshes the fresh
model, and every run of calls on the Robot built with `m1` is the run on the
Robot built with `m2`. -/
theorem C13_constructor_drops_model (fresh_model : Model)
    (config default_config : RobotConfiguration) (m1 m2 : Model) :
    Robot.new_with_model fresh_model config m1 = Robot.new_with_model fresh_model config m2 ∧
    Robot.new_with_model fresh_model config m1 = Robot.new fresh_model config ∧
    Robot.new_from_model fresh_model default_config m1 =
      Robot.new_default fresh_model default_config ∧
    (Robot.new_with_model fresh_model config m1).model_ = fresh_model ∧
    Robot.GetJointPositions (Robot.new_with_model fresh_model config m1) =
      fresh_model.positions ∧
    Robot.GetJointVelocities (Robot.new_with_model fresh_model config m1) =
      fresh_model.velocities ∧
    (∀ (refresh : Model → Model) (heap : Ptr → Component) (trace : List Event),
      (Robot.UpdateJointStates refresh
        { heap := heap, trace := trace,
          robot := Robot.new_with_model fresh_model config m1 }).robot.model_ =
        refresh fresh_model) ∧
    (∀ (refresh : Model → Model) (heap : Ptr → Component) (trace : List Event)
        (ops : List Op),
      run refresh ops
        { heap := heap, trace := trace,
          robot := Robot.new_with_model fresh_model config m1 } =
      run refresh ops
        { heap := heap, trace := trace,
          robot := Robot.new_with_model fresh_model config m2 }) :=
  ⟨rfl, rfl, rfl, rfl, rfl, rfl, fun _ _ _ => rfl, fun _ _ _ _ => rfl⟩

/-! ## Well-formed name map -/

theorem NameMap.mem_assign {m : NameMap} {k : String} {v : Index} {e : String × Index}
    (h : e ∈ NameMap.assign m k v) : e = (k, v) ∨ e ∈ m := by
  induction m with
  | nil =>
    simp only [NameMap.assign, List.mem_singleton] at h
    exact Or.inl h
  | cons e1 rest ih =>
    obtain ⟨k1, v1⟩ := e1
    by_cases hk : k1 = k
    · subst hk
      simp only [NameMap.assign, if_true, List.mem_cons] at h
      rcases h with h | h
      · exact Or.inl h
      · exact Or.inr (List.mem_cons_of_mem _ h)
    · simp only [NameMap.assign, hk, if_false, List.mem_cons] at h
      rcases h with h | h
      · exact Or.inr (by rw [h]; exact List.mem_cons_self _ _)
      · rcases ih h with h1 | h1
        · exact Or.inl h1
        · exact Or.inr (List.mem_cons_of_mem _ h1)

theorem name_map_inv_step (refresh : Model → Model) {op : Op} {w w1 : World}
    (hmap : NameMapInv w) (h : step refresh op w = .ok w1) : NameMapInv w1 := by
  cases op with
  | RegisterStateProvider sp j =>
    obtain ⟨-, hheap, -, hreg, hm, -, -, -, -, -⟩ := register_ok_fields h
    have hname : ∀ q, (w1.heap q).name_ = (w.heap q).name_ := by
      intro q
      rw [hheap]
      by_cases hq : q = sp
      · subst hq; simp
      · simp [Function.update, hq]
    intro e he
    rw [hm] at he
    rcases NameMap.mem_assign he with he1 | he1
    · subst he1
      exact ⟨sp, by rw [hreg]; simp, hname sp⟩
    · obtain ⟨p, hp, hpn⟩ := hmap e he1
      refine ⟨p, ?_, by rw [hname]; exact hpn⟩
      rw [hreg, getElem?_snoc_eq_some]
      exact Or.inl hp
  | Initialize => injection h with h; subst h; exact hmap
  | SetUp => injection h with h; subst h; exact hmap
  | Terminate => injection h with h; subst h; exact hmap
  | UpdateAllStates => injection h with h; subst h; exact hmap
  | UpdateJointStates => injection h with h; subst h; exact hmap

theorem name_map_inv_run (refresh : Model → Model) (ops : List Op) {w w1 : World}
    (hmap : NameMapInv w) (h : run refresh ops w = .ok w1) : NameMapInv w1 := by
  induction ops generalizing w with
  | nil =>
    injection h with h; subst h; exact hmap
  | cons op rest ih =>
    simp only [run] at h
    cases hs : step refresh op w with
    | error e => rw [hs] at h; cases h
    | ok w2 =>
      rw [hs] at h
      exact ih (name_map_inv_step refresh hmap hs) h

/-- Registrations alone are the runs that consist of registration calls. -/
theorem run_registrations (refresh : Model → Model) (regs : List (Ptr × Bool)) (w : World) :
    run refresh (regs.map (fun r => Op.RegisterStateProvider r.1 r.2)) w =
      register_all regs w := by
  induction regs generalizing w with
  | nil => rfl
  | cons r rest ih =>
    obtain ⟨sp, j⟩ := r
    simp only [List.map_cons, run, step, register_all]
    cases Robot.RegisterStateProvider w sp j with
    | error e => rfl
    | ok w2 => exact ih w2

/-- C14: in every state reached from a freshly constructed Robot by registrations
(alone or interleaved with the other calls), every entry of the name map holds
an index below the registry size, the component at that registry position has
the entry's name, and the registry size is the sum of the sizes of the two
sub-lists; so `GetComponent(name)` for a name that is present returns the
component at the mapped position and never reads the registry out of range. -/
theorem C14_name_map_well_formed (refresh : Model → Model) (heap : Ptr → Component)
    (trace : List Event) (fresh_model : Model) (config : RobotConfiguration)
    (ops : List Op) (w : World)
    (h : run refresh ops (World.fresh heap trace fresh_model config) = .ok w) :
    (∀ e ∈ w.robot.name_to_index_,
      e.2 < w.robot.registered_components_.length ∧
      ∃ p, w.robot.registered_components_[e.2]? = some p ∧ (w.heap p).name = e.1) ∧
    (∀ (s : String) (i : Nat), w.robot.name_to_index_.at s = some i →
      i < w.robot.registered_components_.length ∧
      ∃ p, w.robot.registered_components_[i]? = some p ∧ (w.heap p).name = s ∧
        Robot.GetComponent w.robot s = .ok p) ∧
    w.robot.registered_components_.length =
      w.robot.non_joint_state_providers_.length + w.robot.joint_state_providers_.length ∧
    (∀ s : String, Robot.GetComponent w.robot s ≠ .error Failure.invalid_access) := by
  have hinv := inv_run refresh ops (inv_fresh heap trace fresh_model config) h
  have hmap0 : NameMapInv (World.fresh heap trace fresh_model config) := by
    intro e he
    simp [World.fresh, Robot.new] at he
  have hmap := name_map_inv_run refresh ops hmap0 h
  have hat : ∀ (s : String) (i : Nat), w.robot.name_to_index_.at s = some i →
      i < w.robot.registered_components_.length ∧
      ∃ p, w.robot.registered_components_[i]? = some p ∧ (w.heap p).name = s ∧
        Robot.GetComponent w.robot s = .ok p := by
    intro s i hi
    obtain ⟨⟨p, hp, hpn⟩, -⟩ := (hinv.name_at s i).mp hi
    exact ⟨getElem?_lt_of_eq_some hp, p, hp, hpn,
      by simp [Robot.GetComponent, Robot.GetComponent_id, hi, hp]⟩
  refine ⟨?_, hat, hinv.sizes, ?_⟩
  · intro e he
    obtain ⟨p, hp, hpn⟩ := hmap e he
    exact ⟨getElem?_lt_of_eq_some hp, p, hp, hpn⟩
  · intro s hget
    cases hi : w.robot.name_to_index_.at s with
    | none =>
      simp [Robot.GetComponent, hi] at hget
    | some i =>
      obtain ⟨-, p, -, -, hok⟩ := hat s i hi
      rw [hok] at hget
      cases hget

theorem C14_name_map_well_formed_witness :
    ∃ w, run id [Op.RegisterStateProvider 3 false, Op.RegisterStateProvider 4 true,
        Op.RegisterStateProvider 5 false]
        (World.fresh (fun p => ⟨if p = 4 then "knee" else "ft", none, false⟩) [] ⟨[], []⟩ 0)
          = .ok w ∧
      w.robot.name_to_index_ = [("ft", 2), ("knee", 1)] ∧
      w.robot.registered_components_.length =
        w.robot.non_joint_state_providers_.length + w.robot.joint_state_providers_.length ∧
      Robot.GetComponent w.robot "ft" ≠ .error Failure.invalid_access := by
  obtain ⟨w, hw, hm⟩ : ∃ w, run id [Op.RegisterStateProvider 3 false,
        Op.RegisterStateProvider 4 true, Op.RegisterStateProvider 5 false]
        (World.fresh (fun p => ⟨if p = 4 then "knee" else "ft", none, false⟩) [] ⟨[], []⟩ 0)
          = .ok w ∧
      w.robot.name_to_index_ = [("ft", 2), ("knee", 1)] := ⟨_, rfl, by decide⟩
  have hall := C14_name_map_well_formed id _ [] ⟨[], []⟩ 0 _ w hw
  exact ⟨w, hw, hm, hall.2.2.1, hall.2.2.2 "ft"⟩

end mumei
